import Mathlib

set_option maxHeartbeats 1000000

/-! Verification development for the realtime subscription service of a Rust
PocketBase SDK (src/services/realtime_service.rs).  The service's data model
and operations are embedded as executable Lean functions: Rust strings are
modelled as lists of characters, the shared mutable service fields as a plain
state record, and the side effects of the service (resolving waiters,
announcing topics, sleeping, invoking callbacks) as an explicit action list.
The stated behavioural properties of the service are then proved about this
embedding. -/

/-- Model of a Rust string as a list of characters. -/
abbrev Str := List Char

/-- Characters with the Unicode White_Space property, the set stripped by
Rust's str::trim. -/
def rustWS (c : Char) : Bool :=
  let n := c.toNat
  (9 ≤ n && n ≤ 13) || n == 32 || n == 0x85 || n == 0xA0 || n == 0x1680 ||
  (0x2000 ≤ n && n ≤ 0x200A) || n == 0x2028 || n == 0x2029 || n == 0x202F ||
  n == 0x205F || n == 0x3000

/-- Drop leading whitespace. -/
def trimLeft : Str → Str
  | [] => []
  | c :: cs => if rustWS c then trimLeft cs else c :: cs

/-- Model of Rust str::trim: drop leading and trailing whitespace. -/
def rustTrim (s : Str) : Str :=
  (trimLeft (trimLeft s.reverse).reverse)

/-- Model of trim_end_matches with a carriage-return argument: drop every
trailing carriage return. -/
def trimEndCR (s : Str) : Str :=
  (s.reverse.dropWhile (· == '\r')).reverse

/-- Model of Rust str::strip_prefix: if s begins with p, return the rest. -/
def stripPre : Str → Str → Option Str
  | [], s => some s
  | _ :: _, [] => none
  | p :: ps, c :: cs => if c == p then stripPre ps cs else none

/-- Boolean test that s begins with p (Rust str::starts_with). -/
def leadsWith (p s : Str) : Bool := (stripPre p s).isSome

theorem stripPre_eq_some {p s r : Str} : stripPre p s = some r ↔ s = p ++ r := by
  induction p generalizing s with
  | nil =>
    cases s <;> simp [stripPre]
  | cons a ps ih =>
    cases s with
    | nil => simp [stripPre]
    | cons c cs =>
      by_cases h : c = a
      · subst h
        simp [stripPre, ih]
      · simp [stripPre, h, Ne.symm h]

theorem leadsWith_iff {p s : Str} : leadsWith p s = true ↔ ∃ r, s = p ++ r := by
  unfold leadsWith
  cases h : stripPre p s with
  | none =>
    simp only [Option.isSome_none]
    constructor
    · intro hc
      cases hc
    · rintro ⟨r, rfl⟩
      rw [stripPre_eq_some.mpr rfl] at h
      cases h
  | some r =>
    simp only [Option.isSome_some, true_iff]
    exact ⟨r, stripPre_eq_some.mp h⟩

theorem stripPre_append (p s : Str) : stripPre p (p ++ s) = some s := by
  exact stripPre_eq_some.mpr rfl

/-- Splitting a buffer at the first newline: the line before it and the rest
after it, mirroring the buffer.find of the source's read loop. -/
def splitAtNl : Str → Option (Str × Str)
  | [] => none
  | c :: cs =>
    if c = '\n' then some ([], cs)
    else (splitAtNl cs).map (fun p => (c :: p.1, p.2))

theorem splitAtNl_rest_lt {s line rest : Str} (h : splitAtNl s = some (line, rest)) :
    rest.length < s.length := by
  induction s generalizing line rest with
  | nil => cases h
  | cons c cs ih =>
    unfold splitAtNl at h
    by_cases hc : c = '\n'
    · simp only [hc, if_true, Option.some.injEq, Prod.mk.injEq] at h
      obtain ⟨h1, h2⟩ := h
      subst h2
      simp only [List.length_cons]
      omega
    · simp only [hc, if_false] at h
      cases hp : splitAtNl cs with
      | none => rw [hp] at h; cases h
      | some p =>
        rw [hp] at h
        simp only [Option.map_some', Option.some.injEq, Prod.mk.injEq] at h
        have hlt := ih (show splitAtNl cs = some (p.1, p.2) from by rw [hp])
        rw [← h.2]
        simp only [List.length_cons]
        omega

theorem splitAtNl_no_nl {s : Str} (h : '\n' ∉ s) : splitAtNl s = none := by
  induction s with
  | nil => rfl
  | cons c cs ih =>
    simp only [List.mem_cons, not_or] at h
    unfold splitAtNl
    simp [Ne.symm h.1, ih h.2]

theorem splitAtNl_append {l r : Str} (h : '\n' ∉ l) :
    splitAtNl (l ++ '\n' :: r) = some (l, r) := by
  induction l with
  | nil => simp [splitAtNl]
  | cons c cs ih =>
    simp only [List.mem_cons, not_or] at h
    unfold splitAtNl
    simp [Ne.symm h.1, ih h.2]

/-! The incremental SSE frame scanner.  The source keeps three string fields
(event_type, event_data, event_id) plus a carry-over buffer, extracts one
line per iteration, strips trailing carriage returns, and assembles events
that are delivered when an empty line arrives. -/

/-- Fields of an SSE event, both while under construction and once emitted. -/
structure SseEvent where
  etype : Str
  edata : Str
  eid : Str
deriving DecidableEq, Repr

/-- Cleared event fields (all three empty). -/
def SseEvent.blank : SseEvent := ⟨[], [], []⟩

/-- Processing of a single extracted line, mirroring the inner branches of
the source's read loop: an empty line emits the event under construction
when its type or data is non-empty and clears all three fields; lines led
by the event:, data: and id: markers update the respective field with the
trimmed remainder (data accumulates with newline separators); any other
line is ignored. -/
def lineStep (line : Str) (f : SseEvent) : SseEvent × Option SseEvent :=
  if line.isEmpty then
    if !f.etype.isEmpty || !f.edata.isEmpty then (SseEvent.blank, some f)
    else (SseEvent.blank, none)
  else
    match stripPre "event:".data line with
    | some v => ({ f with etype := rustTrim v }, none)
    | none =>
      match stripPre "data:".data line with
      | some v =>
        ({ f with edata := if f.edata.isEmpty then rustTrim v
                            else f.edata ++ '\n' :: rustTrim v }, none)
      | none =>
        match stripPre "id:".data line with
        | some v => ({ f with eid := rustTrim v }, none)
        | none => (f, none)

/-- Line extraction loop with an explicit iteration bound: while a newline
is present, extract one line and process it.  The bound only serves
termination; every extracted line consumes at least one character, so a
bound of the buffer length (as used by drainBuf below) is never hit. -/
def drainBufF : Nat → Str → SseEvent → Str × SseEvent × List SseEvent
  | 0, buf, f => (buf, f, [])
  | fuel + 1, buf, f =>
    match splitAtNl buf with
    | none => (buf, f, [])
    | some (line, rest) =>
      let p := lineStep (trimEndCR line) f
      let q := drainBufF fuel rest p.1
      (q.1, q.2.1, p.2.toList ++ q.2.2)

/-- Draining every complete line out of the buffer: repeats line extraction
while a newline is present, returning the remaining partial line, the fields
under construction, and the events emitted, in order. -/
def drainBuf (buf : Str) (f : SseEvent) : Str × SseEvent × List SseEvent :=
  drainBufF buf.length buf f

/-- Scanner state carried between chunks: the partial-line buffer and the
event fields under construction. -/
structure ScanState where
  buffer : Str
  fields : SseEvent
deriving DecidableEq, Repr

/-- Initial scanner state. -/
def ScanState.init : ScanState := ⟨[], SseEvent.blank⟩

/-- Feeding one chunk of bytes into the scanner. -/
def feedChunk (st : ScanState) (chunk : Str) : ScanState × List SseEvent :=
  let r := drainBuf (st.buffer ++ chunk) st.fields
  (⟨r.1, r.2.1⟩, r.2.2)

/-! The connection-state model.  The service's shared fields (client_id,
subscriptions, last_sent_subscriptions, reconnect_attempts, is_connected,
pending_connects, disconnect_tx) are collected into one state record; the
side effects the service performs are returned as an explicit action list. -/

/-- Model of serde_json::Value.  Numbers are modelled as integers (the
service itself never constructs non-integral numbers; floating point is out
of scope of this embedding). -/
inductive JValue where
  | null
  | bool (b : Bool)
  | num (n : Int)
  | str (s : Str)
  | arr (elems : List JValue)
  | obj (fields : List (Str × JValue))

/-- Model of ClientResponseError (client_response_error.rs). -/
structure CRError where
  url : Str
  status : Nat
  response : List (Str × JValue)
  isAbort : Bool
  message : Str

/-- Model of SubscriptionEntry: the unique subscription id together with an
opaque token standing for the boxed callback. -/
structure SubEntry where
  id : Nat
  cb : Nat
deriving DecidableEq, Repr

/-- Model of the subscriptions HashMap as an association list from topic key
to the bucket of entries. -/
abbrev Subs := List (Str × List SubEntry)

/-- Model of a decoded RealtimeMessage. -/
structure RtMessage where
  action : Str
  record : JValue

/-- Shared mutable fields of RealtimeService. pending lists the waiter
tokens of pending_connects; disconnectCh records whether disconnect_tx
currently holds a sender. -/
structure RtState where
  clientId : Str
  subs : Subs
  lastSent : List Str
  reconnectAttempts : Nat
  connected : Bool
  pending : List Nat
  disconnectCh : Bool

/-- Observable side effects of the service, in program order. retryOpen
stands for re-invoking init_connect, the effect a full reconnect
implementation performs after the backoff sleep. -/
inductive RtAction where
  | resolveOk (w : Nat)
  | rejectErr (w : Nat) (e : CRError)
  | announce (cid : Str) (topics : List Str)
  | sendDisconnect
  | sleepMs (ms : Nat)
  | retryOpen
  | invoke (cb : Nat) (m : RtMessage)
  | broadcastConnect

/-- Topic keys whose bucket is non-empty, as collected by the announce
paths of the source (filter on non-empty entry lists, then the key). -/
def activeKeys (subs : Subs) : List Str :=
  (subs.filter (fun kv => !kv.2.isEmpty)).map (·.1)

/-- Lookup of a bucket by exact topic key (HashMap::get). -/
def subsGet (subs : Subs) (k : Str) : Option (List SubEntry) :=
  (subs.find? (fun kv => kv.1 == k)).map (·.2)

/-- Model of is_connected (realtime_service.rs lines 110-116): the connected
flag is set, the server-assigned client id is non-empty, and no connect
attempt is pending. -/
def isConnectedQ (s : RtState) : Bool :=
  s.connected && !s.clientId.isEmpty && s.pending.isEmpty

/-- Model of the PB_CONNECT branch of the read loop (lines 513-549): store
the event id as client id, announce the active keys when non-empty and
record them as last sent, mark connected, zero the attempt counter, resolve
every pending waiter and broadcast the connection event. -/
def processPBConnect (s : RtState) (eid : Str) : RtState × List RtAction :=
  let topics := activeKeys s.subs
  let announceActs := if topics.isEmpty then [] else [RtAction.announce eid topics]
  let lastSent' := if topics.isEmpty then s.lastSent else topics
  ({ s with clientId := eid, lastSent := lastSent', connected := true,
            reconnectAttempts := 0, pending := [] },
   announceActs ++ s.pending.map RtAction.resolveOk ++ [RtAction.broadcastConnect])

/-- Model of the non-PB_CONNECT branch (lines 550-562): decode the data
payload and, on success, invoke every callback registered under the bucket
keyed by the event type; on failure do nothing.  The decoder
(serde_json::from_str, an external collaborator) is a parameter. -/
def dispatchData (decode : Str → Option RtMessage) (subs : Subs)
    (etype edata : Str) : List RtAction :=
  match decode edata with
  | none => []
  | some m =>
    match subsGet subs etype with
    | none => []
    | some entries => entries.map (fun e => RtAction.invoke e.cb m)

/-- Processing of one completed event by the read loop. -/
def processEvent (decode : Str → Option RtMessage) (s : RtState) (ev : SseEvent) :
    RtState × List RtAction :=
  if ev.etype = "PB_CONNECT".data then processPBConnect s ev.eid
  else (s, dispatchData decode s.subs ev.etype ev.edata)

/-- Processing of a list of completed events in order; the loop never aborts
on an event, it only threads the state through. -/
def processEvents (decode : Str → Option RtMessage) :
    RtState → List SseEvent → RtState × List RtAction
  | s, [] => (s, [])
  | s, ev :: evs =>
    let p := processEvent decode s ev
    let q := processEvents decode p.1 evs
    (q.1, p.2 ++ q.2)

/-- Model of handle_connect_error (lines 600-641).  When no successful
connection ever existed and no attempt was made, or the attempt budget is
exhausted: reject every pending waiter and reset to disconnected.  Otherwise
clear the session and connected flag, sleep the scheduled backoff delay and
increment the attempt counter.  The source then returns without re-invoking
init_connect (its comment concedes the retry is left out), so no retryOpen
action is ever produced. -/
def handleConnectError (intervals : List Nat) (maxAtt : Nat)
    (s : RtState) (err : CRError) : RtState × List RtAction :=
  let attempts := s.reconnectAttempts
  let wasConnected := !s.clientId.isEmpty
  if (wasConnected = false ∧ attempts = 0) ∨ attempts > maxAtt then
    ({ s with connected := false, clientId := [], reconnectAttempts := 0, pending := [] },
     s.pending.map (fun w => RtAction.rejectErr w err))
  else
    let idx := min attempts (intervals.length - 1)
    let t := intervals.getD idx 0
    ({ s with connected := false, clientId := [], reconnectAttempts := attempts + 1 },
     [RtAction.sleepMs t])

/-- Model of disconnect (lines 679-703): signal the background task if a
sender is present, clear session id and connected flag; when not part of a
reconnect cycle also reset the attempt counter and resolve (not reject) the
remaining waiters. -/
def disconnect (s : RtState) (fromReconnect : Bool) : RtState × List RtAction :=
  let sig := if s.disconnectCh then [RtAction.sendDisconnect] else []
  if fromReconnect then
    ({ s with disconnectCh := false, clientId := [], connected := false }, sig)
  else
    ({ s with disconnectCh := false, clientId := [], connected := false,
              reconnectAttempts := 0, pending := [] },
     sig ++ s.pending.map RtAction.resolveOk)

/-- Model of submit_subscriptions (lines 644-676): skip when no client id
is present; otherwise record the active keys as last sent, perform the
announce call, swallow aborted failures and propagate every other error.
The outcome of the underlying send (an external call) is a parameter. -/
def submitSubs (sendRes : Except CRError Unit) (s : RtState) :
    RtState × List RtAction × Except CRError Unit :=
  if s.clientId.isEmpty then (s, [], Except.ok ())
  else
    let topics := activeKeys s.subs
    let s1 := { s with lastSent := topics }
    let acts := [RtAction.announce s.clientId topics]
    match sendRes with
    | Except.ok _ => (s1, acts, Except.ok ())
    | Except.error e =>
      if e.isAbort then (s1, acts, Except.ok ()) else (s1, acts, Except.error e)

/-- Model of connect (lines 363-406): a call while a reconnect cycle is in
progress returns at once; otherwise the caller's waiter is appended and a
fresh stream open (init_connect) is started only when it is the sole
waiter.  The returned flag records whether an open attempt was started. -/
def requestConnect (s : RtState) (w : Nat) : RtState × Bool :=
  if s.reconnectAttempts > 0 then (s, false)
  else
    let pending' := s.pending ++ [w]
    if pending'.length > 1 then ({ s with pending := pending' }, false)
    else ({ s with pending := pending' }, true)

/-! The registry removal operations. -/

/-- Topic match pattern of the removal paths (lines 242-252 and 297-307):
the bare topic name is extended with a question mark unless it already
carries one, and a key matches when it equals the topic or when the key
with a question mark appended begins with that pattern. -/
def topicPat (t : Str) : Str := if t.contains '?' then t else t ++ ['?']

/-- Key filter used by unsubscribe_by_id and unsubscribe. -/
def unsubMatch (t k : Str) : Bool :=
  k == t || leadsWith (topicPat t) (k ++ ['?'])

/-- Keys of the registry matched by the topic, as collected before the
removal pass of unsubscribe_by_id (lines 248-252). -/
def matchingKeys (subs : Subs) (t : Str) : List Str :=
  (subs.map (·.1)).filter (fun k => unsubMatch t k)

/-- One removal pass over a single key (lines 254-267): drop the entry with
the given subscription id from that key's bucket and delete the bucket when
it becomes empty. -/
def updOne (i : Nat) (k : Str) (subs : Subs) : Subs :=
  subs.filterMap (fun kv =>
    if kv.1 == k then
      let es := kv.2.filter (fun e => e.id != i)
      if es.isEmpty then none else some (kv.1, es)
    else some kv)

/-- Registry part of unsubscribe_by_id: apply the removal pass to every
matching key. -/
def removeById (subs : Subs) (t : Str) (i : Nat) : Subs :=
  (matchingKeys subs t).foldl (fun acc k => updOne i k acc) subs

/-- Whether the removal pass of unsubscribe_by_id dropped at least one entry
(the source's need_to_submit flag). -/
def removalOccurred (subs : Subs) (t : Str) (i : Nat) : Bool :=
  subs.any (fun kv => unsubMatch t kv.1 && kv.2.any (fun e => e.id == i))

/-- Model of unsubscribe_by_id (lines 227-279), the closure handed back by
subscribe: remove the entry, then clear only the connected flag when the
registry became globally empty; otherwise, when an entry was removed while
connected, record the remaining keys as last sent.  The source performs no
disconnect signalling, session-id clearing or announce call on this path. -/
def unsubscribeById (s : RtState) (t : Str) (i : Nat) : RtState :=
  let subs' := removeById s.subs t i
  let needSubmit := removalOccurred s.subs t i
  if subs'.isEmpty then
    { s with subs := subs', connected := false }
  else if needSubmit && s.connected then
    { s with subs := subs', lastSent := subs'.map (·.1) }
  else { s with subs := subs' }

/-- Model of unsubscribe (lines 284-326): remove every bucket matching the
topic (or all of them when no topic is given); a registry left empty causes
a full disconnect, otherwise a removal triggers an announce whose outcome is
the sendRes parameter. -/
def unsubscribe (sendRes : Except CRError Unit) (s : RtState) (topic : Option Str) :
    RtState × List RtAction × Except CRError Unit :=
  match topic with
  | none =>
    let s1 := { s with subs := [] }
    let r := disconnect s1 false
    (r.1, r.2, Except.ok ())
  | some t =>
    let removed := s.subs.filter (fun kv => unsubMatch t kv.1)
    let s1 := { s with subs := s.subs.filter (fun kv => !unsubMatch t kv.1) }
    if s1.subs.isEmpty then
      let r := disconnect s1 false
      (r.1, r.2, Except.ok ())
    else if !removed.isEmpty then
      submitSubs sendRes s1
    else (s1, [], Except.ok ())

/-- Model of unsubscribe_by_prefix (lines 329-360): remove every bucket
whose key with a question mark appended begins with the given key prefix;
when nothing matched return at once, otherwise announce or, if the registry
became empty, disconnect fully. -/
def unsubByPref (sendRes : Except CRError Unit) (s : RtState) (keyPref : Str) :
    RtState × List RtAction × Except CRError Unit :=
  let removed := s.subs.filter (fun kv => leadsWith keyPref (kv.1 ++ ['?']))
  let s1 := { s with subs := s.subs.filter (fun kv => !leadsWith keyPref (kv.1 ++ ['?'])) }
  if removed.isEmpty then (s, [], Except.ok ())
  else if !s1.subs.isEmpty then submitSubs sendRes s1
  else
    let r := disconnect s1 false
    (r.1, r.2, Except.ok ())

/-! Topic-key derivation (subscribe, lines 156-170) and its ingredients: the
compact serde_json serialization of the per-subscription options and the
urlencoding helper module (lines 722-739). -/

/-- Left curly bracket character. -/
def lcurl : Char := Char.ofNat 123

/-- Right curly bracket character. -/
def rcurl : Char := Char.ofNat 125

/-- Decimal digit character. -/
def digitChar (n : Nat) : Char := Char.ofNat (48 + n)

/-- Decimal digits of a natural number. -/
def natChars (n : Nat) : Str :=
  if h : n < 10 then [digitChar n]
  else natChars (n / 10) ++ [digitChar (n % 10)]
termination_by n
decreasing_by exact Nat.div_lt_self (by omega) (by omega)

/-- Decimal rendering of an integer. -/
def intChars : Int → Str
  | Int.ofNat n => natChars n
  | Int.negSucc m => '-' :: natChars (m + 1)

/-- Lowercase hexadecimal digit (serde_json uses lowercase in escapes). -/
def hexLower (n : Nat) : Char :=
  if n < 10 then Char.ofNat (48 + n) else Char.ofNat (87 + n)

/-- Escaping of one character inside a serde_json string literal. -/
def escChar (c : Char) : Str :=
  if c = '"' then ['\\', '"']
  else if c = '\\' then ['\\', '\\']
  else if c.toNat < 0x20 then
    if c.toNat = 8 then ['\\', 'b']
    else if c.toNat = 9 then ['\\', 't']
    else if c.toNat = 10 then ['\\', 'n']
    else if c.toNat = 12 then ['\\', 'f']
    else if c.toNat = 13 then ['\\', 'r']
    else ['\\', 'u', '0', '0', hexLower (c.toNat / 16), hexLower (c.toNat % 16)]
  else [c]

/-- Compact serde_json string literal. -/
def jsonStrLit (s : Str) : Str := '"' :: s.flatMap escChar ++ ['"']

mutual

/-- Compact serde_json serialization of a value. -/
def jsonEncode : JValue → Str
  | JValue.null => "null".data
  | JValue.bool true => "true".data
  | JValue.bool false => "false".data
  | JValue.num n => intChars n
  | JValue.str s => jsonStrLit s
  | JValue.arr es => '[' :: jsonItems es ++ [']']
  | JValue.obj fs => lcurl :: jsonFields fs ++ [rcurl]

/-- Comma-separated serializations of array elements. -/
def jsonItems : List JValue → Str
  | [] => []
  | [v] => jsonEncode v
  | v :: vs => jsonEncode v ++ ',' :: jsonItems vs

/-- Comma-separated key-value serializations of object members. -/
def jsonFields : List (Str × JValue) → Str
  | [] => []
  | [(k, v)] => jsonStrLit k ++ ':' :: jsonEncode v
  | (k, v) :: fs => jsonStrLit k ++ ':' :: jsonEncode v ++ ',' :: jsonFields fs

end

/-- Ordering of object members by key, as a serde_json Map (a BTreeMap over
the UTF-8 string order) stores them. -/
def keyLE (a b : Str × JValue) : Prop := a.1 ≤ b.1

instance : DecidableRel keyLE := fun a b => inferInstanceAs (Decidable (a.1 ≤ b.1))

/-- Canonical sorted form of the members collected from a HashMap into a
serde_json Map. -/
def sortByKey (l : List (Str × JValue)) : List (Str × JValue) :=
  List.insertionSort keyLE l

/-- Model of SendOptions (tools/options.rs): an HTTP method, custom headers,
an optional body, query parameters and an optional request key.  The two
HashMaps are modelled as association lists. -/
structure SendOpts where
  method : Str
  headers : List (Str × Str)
  body : Option JValue
  query : List (Str × JValue)
  requestKey : Option Str

/-- The serde_json value built by subscribe for the options suffix:
an object holding the query and headers maps.  Its serialization orders the
members of every object by key, so the two top-level members appear as
headers before query. -/
def optsValue (o : SendOpts) : JValue :=
  JValue.obj
    [("headers".data, JValue.obj (sortByKey (o.headers.map (fun kv => (kv.1, JValue.str kv.2))))),
     ("query".data, JValue.obj (sortByKey o.query))]

/-- Serialization of the options as performed by serde_json::to_string. -/
def serializeOpts (o : SendOpts) : Str := jsonEncode (optsValue o)

/-- Unreserved characters kept verbatim by the urlencoding helper: the
ranges a-z (97-122), A-Z (65-90), 0-9 (48-57) and the four marks hyphen
(45), underscore (95), full stop (46) and tilde (126). -/
def unreserved (c : Char) : Bool :=
  let n := c.toNat
  (97 ≤ n && n ≤ 122) || (65 ≤ n && n ≤ 90) || (48 ≤ n && n ≤ 57) ||
  n == 45 || n == 95 || n == 46 || n == 126

/-- UTF-8 bytes of a code point. -/
def utf8Bytes (n : Nat) : List Nat :=
  if n < 0x80 then [n]
  else if n < 0x800 then [0xC0 + n / 64, 0x80 + n % 64]
  else if n < 0x10000 then [0xE0 + n / 4096, 0x80 + n / 64 % 64, 0x80 + n % 64]
  else [0xF0 + n / 262144, 0x80 + n / 4096 % 64, 0x80 + n / 64 % 64, 0x80 + n % 64]

/-- Uppercase hexadecimal digit as written by the percent escapes. -/
def hexUpper (n : Nat) : Char :=
  if n < 10 then Char.ofNat (48 + n) else Char.ofNat (55 + n)

/-- Percent escape of one byte. -/
def encByte (b : Nat) : List Char := ['%', hexUpper (b / 16), hexUpper (b % 16)]

/-- Encoding of one character: unreserved characters pass through, every
other character is written as the percent escapes of its UTF-8 bytes. -/
def encChar (c : Char) : List Char :=
  if unreserved c then [c] else (utf8Bytes c.toNat).flatMap encByte

/-- Model of urlencoding::encode (lines 722-739). -/
def urlEncode (s : Str) : Str := s.flatMap encChar

/-- Model of the topic-key derivation of subscribe (lines 156-170): the key
is the topic itself without options; with options, the serialized options
are percent escaped and appended after an options= marker introduced by a
question mark, or by an ampersand when the topic already contains a
question mark. -/
def subscribeKey (t : Str) (options : Option SendOpts) : Str :=
  match options with
  | none => t
  | some o =>
    let encoded := urlEncode (serializeOpts o)
    let delim := if t.contains '?' then ['&'] else ['?']
    t ++ delim ++ "options=".data ++ encoded

/-! Claims about the connection state machine. -/

/-- C10: the public is_connected query returns true exactly when the
connected flag is set, the server-assigned client id is non-empty and the
pending connect waiter list is empty; with a waiter pending it returns
false even while the flag is already set. -/
theorem C10_is_connected_query (s : RtState) :
    isConnectedQ s = true ↔ (s.connected = true ∧ s.clientId ≠ [] ∧ s.pending = []) := by
  unfold isConnectedQ
  simp [List.isEmpty_iff, and_assoc]

/-- C9: from a disconnected state (no reconnect cycle, no pending waiter),
the first connect request starts exactly one stream open and the second is
only appended to the waiter list, awaiting the first attempt's outcome; in
general a request that finds the waiter list non-empty never starts an
open. -/
theorem C9_single_open_attempt (s : RtState) (w1 w2 : Nat)
    (hatt : s.reconnectAttempts = 0) (hp : s.pending = []) :
    (requestConnect s w1).2 = true ∧
    (requestConnect (requestConnect s w1).1 w2).2 = false ∧
    (requestConnect (requestConnect s w1).1 w2).1.pending = [w1, w2] ∧
    (∀ s' w, s'.pending ≠ [] → (requestConnect s' w).2 = false) := by
  refine ⟨?_, ?_, ?_, ?_⟩
  · simp [requestConnect, hatt, hp]
  · simp [requestConnect, hatt, hp]
  · simp [requestConnect, hatt, hp]
  · intro s' w hne
    unfold requestConnect
    by_cases h1 : s'.reconnectAttempts > 0
    · simp [h1]
    · have hpos : 0 < s'.pending.length := by
        cases hq : s'.pending with
        | nil => exact absurd hq hne
        | cons a l => simp
      simp [h1, hpos]

theorem C9_single_open_attempt_witness :
    (requestConnect ⟨[], [], [], 0, false, [], false⟩ 1).2 = true ∧
    (requestConnect (requestConnect ⟨[], [], [], 0, false, [], false⟩ 1).1 2).2 = false ∧
    (requestConnect (requestConnect ⟨[], [], [], 0, false, [], false⟩ 1).1 2).1.pending = [1, 2] ∧
    (∀ s' w, s'.pending ≠ [] → (requestConnect s' w).2 = false) :=
  C9_single_open_attempt ⟨[], [], [], 0, false, [], false⟩ 1 2 rfl rfl

/-- C8: an announce with no session id present is skipped and succeeds; an
announce whose underlying request fails with an abort error swallows the
failure and succeeds; every other failure propagates, and it reaches the
caller whose registry mutation triggered the announce (here the unsubscribe
path that leaves the registry non-empty after a removal). -/
theorem C8_announce_error_policy :
    (∀ sendRes s, s.clientId = [] → submitSubs sendRes s = (s, [], Except.ok ())) ∧
    (∀ s, s.clientId ≠ [] → (submitSubs (Except.ok ()) s).2.2 = Except.ok ()) ∧
    (∀ s e, s.clientId ≠ [] → e.isAbort = true →
      (submitSubs (Except.error e) s).2.2 = Except.ok ()) ∧
    (∀ s e, s.clientId ≠ [] → e.isAbort = false →
      (submitSubs (Except.error e) s).2.2 = Except.error e) ∧
    (∀ sendRes s t,
      (s.subs.filter (fun kv => !unsubMatch t kv.1)).isEmpty = false →
      (s.subs.filter (fun kv => unsubMatch t kv.1)).isEmpty = false →
      (unsubscribe sendRes s (some t)).2.2 =
        (submitSubs sendRes { s with subs := s.subs.filter (fun kv => !unsubMatch t kv.1) }).2.2) := by
  refine ⟨?_, ?_, ?_, ?_, ?_⟩
  · intro sendRes s h
    unfold submitSubs
    simp [h]
  · intro s h
    unfold submitSubs
    simp [List.isEmpty_iff, h]
  · intro s e h ha
    unfold submitSubs
    simp [List.isEmpty_iff, h, ha]
  · intro s e h ha
    unfold submitSubs
    simp [List.isEmpty_iff, h, ha]
  · intro sendRes s t h1 h2
    unfold unsubscribe
    simp [h1, h2]

theorem C8_announce_error_policy_witness :
    (submitSubs (Except.ok ()) ⟨[], [], [], 0, false, [], false⟩ =
      (⟨[], [], [], 0, false, [], false⟩, [], Except.ok ())) ∧
    (submitSubs (Except.error ⟨[], 0, [], true, []⟩)
        ⟨"abc".data, [], [], 0, true, [], false⟩).2.2 = Except.ok () ∧
    (submitSubs (Except.error ⟨[], 404, [], false, []⟩)
        ⟨"abc".data, [], [], 0, true, [], false⟩).2.2 =
      Except.error ⟨[], 404, [], false, []⟩ :=
  ⟨C8_announce_error_policy.1 (Except.ok ()) ⟨[], [], [], 0, false, [], false⟩ rfl,
   C8_announce_error_policy.2.2.1 ⟨"abc".data, [], [], 0, true, [], false⟩
     ⟨[], 0, [], true, []⟩ (by simp) rfl,
   C8_announce_error_policy.2.2.2.1 ⟨"abc".data, [], [], 0, true, [], false⟩
     ⟨[], 404, [], false, []⟩ (by simp) rfl⟩

/-- C2: processing a completed PB_CONNECT event stores the event id as the
session id, sets the connected flag, zeroes the reconnect attempt counter,
resolves (never rejects) every pending waiter leaving the waiter list
empty, and, exactly when the set of active topic keys is non-empty,
performs one announce carrying that key set and records it as the last
announced set. -/
theorem C2_pb_connect_transition (s : RtState) (eid : Str) :
    (processPBConnect s eid).1.clientId = eid ∧
    (processPBConnect s eid).1.connected = true ∧
    (processPBConnect s eid).1.reconnectAttempts = 0 ∧
    (processPBConnect s eid).1.pending = [] ∧
    (∀ w ∈ s.pending, RtAction.resolveOk w ∈ (processPBConnect s eid).2) ∧
    (∀ w e, RtAction.rejectErr w e ∉ (processPBConnect s eid).2) ∧
    (activeKeys s.subs ≠ [] →
      RtAction.announce eid (activeKeys s.subs) ∈ (processPBConnect s eid).2 ∧
      (processPBConnect s eid).1.lastSent = activeKeys s.subs) ∧
    (∀ cid tp, RtAction.announce cid tp ∈ (processPBConnect s eid).2 →
      cid = eid ∧ tp = activeKeys s.subs ∧ activeKeys s.subs ≠ []) := by
  simp only [processPBConnect]
  refine ⟨trivial, trivial, trivial, trivial, ?_, ?_, ?_, ?_⟩
  · intro w hw
    exact List.mem_append_left _ (List.mem_append_right _ (List.mem_map_of_mem _ hw))
  · intro w e h
    rcases List.mem_append.mp h with h1 | h2
    · rcases List.mem_append.mp h1 with h1a | h1b
      · by_cases htop : (activeKeys s.subs).isEmpty
        · simp [htop] at h1a
        · simp [htop] at h1a
      · rcases List.mem_map.mp h1b with ⟨a, _, ha⟩
        cases ha
    · simp at h2
  · intro hne
    have htop : (activeKeys s.subs).isEmpty = false := List.isEmpty_eq_false.mpr hne
    constructor
    · exact List.mem_append_left _ (List.mem_append_left _ (by simp [htop]))
    · simp [htop]
  · intro cid tp h
    rcases List.mem_append.mp h with h1 | h2
    · rcases List.mem_append.mp h1 with h1a | h1b
      · by_cases htop : (activeKeys s.subs).isEmpty
        · simp [htop] at h1a
        · simp [htop] at h1a
          refine ⟨h1a.1, h1a.2, fun hl => htop ?_⟩
          rw [hl]
          rfl
      · rcases List.mem_map.mp h1b with ⟨a, _, ha⟩
        cases ha
    · simp at h2

theorem C2_pb_connect_transition_witness :
    (processPBConnect ⟨[], [("posts".data, [⟨1, 2⟩])], [], 3, false, [7], true⟩
        "abc123".data).1.clientId = "abc123".data ∧
    RtAction.resolveOk 7 ∈
      (processPBConnect ⟨[], [("posts".data, [⟨1, 2⟩])], [], 3, false, [7], true⟩
        "abc123".data).2 ∧
    RtAction.announce "abc123".data (activeKeys [("posts".data, [⟨1, 2⟩])]) ∈
      (processPBConnect ⟨[], [("posts".data, [⟨1, 2⟩])], [], 3, false, [7], true⟩
        "abc123".data).2 :=
  ⟨(C2_pb_connect_transition ⟨[], [("posts".data, [⟨1, 2⟩])], [], 3, false, [7], true⟩
      "abc123".data).1,
   (C2_pb_connect_transition ⟨[], [("posts".data, [⟨1, 2⟩])], [], 3, false, [7], true⟩
      "abc123".data).2.2.2.2.1 7 (by simp),
   ((C2_pb_connect_transition ⟨[], [("posts".data, [⟨1, 2⟩])], [], 3, false, [7], true⟩
      "abc123".data).2.2.2.2.2.2.1 (by decide)).1⟩

/-- C6: a completed non-PB_CONNECT event whose data fails to decode invokes
no callback and the event loop simply moves on to the next event with the
state unchanged; when decoding succeeds the message is delivered to exactly
the entries of the bucket keyed by the event's type. -/
theorem C6_decode_failure_isolation :
    (∀ decode subs etype edata, decode edata = none →
      dispatchData decode subs etype edata = []) ∧
    (∀ decode subs etype edata m, decode edata = some m →
      dispatchData decode subs etype edata =
        ((subsGet subs etype).getD []).map (fun e => RtAction.invoke e.cb m)) ∧
    (∀ decode s etype edata eid evs, etype ≠ "PB_CONNECT".data → decode edata = none →
      processEvents decode s (SseEvent.mk etype edata eid :: evs) =
        processEvents decode s evs) := by
  refine ⟨?_, ?_, ?_⟩
  · intro decode subs etype edata h
    unfold dispatchData
    rw [h]
  · intro decode subs etype edata m h
    unfold dispatchData
    rw [h]
    cases hg : subsGet subs etype <;> simp
  · intro decode s etype edata eid evs hne hdec
    show (let p := processEvent decode s ⟨etype, edata, eid⟩
          let q := processEvents decode p.1 evs
          (q.1, p.2 ++ q.2)) = processEvents decode s evs
    simp only [processEvent, hne, if_neg, dispatchData, hdec]
    simp

theorem C6_decode_failure_isolation_witness :
    dispatchData (fun _ => none) [("posts".data, [⟨1, 2⟩])] "posts".data "bad".data = [] ∧
    processEvents (fun _ => none) ⟨[], [("posts".data, [⟨1, 2⟩])], [], 0, true, [], true⟩
        [SseEvent.mk "posts".data "bad".data [], SseEvent.mk "other".data "x".data []] =
      processEvents (fun _ => none) ⟨[], [("posts".data, [⟨1, 2⟩])], [], 0, true, [], true⟩
        [SseEvent.mk "other".data "x".data []] :=
  ⟨C6_decode_failure_isolation.1 (fun _ => none) [("posts".data, [⟨1, 2⟩])]
      "posts".data "bad".data rfl,
   C6_decode_failure_isolation.2.2 (fun _ => none)
      ⟨[], [("posts".data, [⟨1, 2⟩])], [], 0, true, [], true⟩
      "posts".data "bad".data [] [SseEvent.mk "other".data "x".data []]
      (by decide) rfl⟩

/-- C1 (code bug): handle_connect_error evaluated on the reconnect path
(session id present) clears the session id and connected flag, leaves the
waiters untouched, sleeps the scheduled delay and increments the attempt
counter, but emits no retryOpen: the source returns after the sleep without
re-invoking init_connect, so the claimed retry of the stream open never
happens.  The direct-reject path and the backoff formula behave as
claimed. -/
theorem C1_failure_handler_no_retry :
    (handleConnectError [200, 300, 500] 5 ⟨"abc".data, [], [], 0, true, [6], true⟩
        ⟨[], 0, [], false, "boom".data⟩ =
      (⟨[], [], [], 1, false, [6], true⟩, [RtAction.sleepMs 200]) ∧
     RtAction.retryOpen ∉
      (handleConnectError [200, 300, 500] 5 ⟨"abc".data, [], [], 0, true, [6], true⟩
        ⟨[], 0, [], false, "boom".data⟩).2) ∧
    ([0, 1, 2, 3, 4].map (fun a => [200, 300, 500].getD (min a 2) 0) =
      [200, 300, 500, 500, 500]) ∧
    (handleConnectError [200, 300, 500] 5 ⟨[], [], [], 0, false, [9], true⟩
        ⟨[], 0, [], false, "boom".data⟩ =
      (⟨[], [], [], 0, false, [], true⟩,
       [RtAction.rejectErr 9 ⟨[], 0, [], false, "boom".data⟩])) := by
  refine ⟨⟨rfl, ?_⟩, rfl, rfl⟩
  intro h
  have h2 : RtAction.retryOpen ∈ [RtAction.sleepMs 200] := h
  simp at h2

theorem submitSubs_keeps_connection (sendRes : Except CRError Unit) (s : RtState) :
    (submitSubs sendRes s).1.clientId = s.clientId ∧
    (submitSubs sendRes s).1.connected = s.connected ∧
    (submitSubs sendRes s).1.subs = s.subs ∧
    RtAction.sendDisconnect ∉ (submitSubs sendRes s).2.1 := by
  unfold submitSubs
  by_cases h : s.clientId.isEmpty
  · simp [h]
  · cases sendRes with
    | ok u => simp [h]
    | error e =>
      by_cases ha : e.isAbort <;> simp [h, ha]

/-- C4 counterexample: the per-subscription unsubscribe handle returned by
subscribe, applied to the last remaining subscription, empties the registry
but performs no full disconnect: the session id stays in place (and no stop
signal is sent), refuting the claim that every removal path emptying the
registry clears the session id. -/
theorem C4_handle_keeps_session :
    (unsubscribeById ⟨"abc".data, [("posts".data, [⟨1, 0⟩])], [], 0, true, [], true⟩
        "posts".data 1).subs = [] ∧
    (unsubscribeById ⟨"abc".data, [("posts".data, [⟨1, 0⟩])], [], 0, true, [], true⟩
        "posts".data 1).clientId = "abc".data ∧
    "abc".data ≠ ([] : Str) := by
  refine ⟨by decide, by decide, by decide⟩

/-- C4 (amended): unsubscribe with no topic, unsubscribe of a topic and
unsubscribe by key prefix perform a full disconnect whenever they leave the
registry empty (session id cleared, state disconnected, stop signal sent to
the background task when a sender is installed); the per-subscription
handle only clears the connected flag when the registry becomes empty,
keeping the session id; and removing a topic while other buckets survive
never tears the connection down. -/
theorem C4_empty_registry_teardown (sendRes : Except CRError Unit) (s : RtState) :
    ((unsubscribe sendRes s none).1.subs = [] ∧
     (unsubscribe sendRes s none).1.clientId = [] ∧
     (unsubscribe sendRes s none).1.connected = false ∧
     (s.disconnectCh = true → RtAction.sendDisconnect ∈ (unsubscribe sendRes s none).2.1)) ∧
    (∀ t, (s.subs.filter (fun kv => !unsubMatch t kv.1)).isEmpty = true →
      (unsubscribe sendRes s (some t)).1.clientId = [] ∧
      (unsubscribe sendRes s (some t)).1.connected = false ∧
      (s.disconnectCh = true →
        RtAction.sendDisconnect ∈ (unsubscribe sendRes s (some t)).2.1)) ∧
    (∀ p, (s.subs.filter (fun kv => leadsWith p (kv.1 ++ ['?']))).isEmpty = false →
      (s.subs.filter (fun kv => !leadsWith p (kv.1 ++ ['?']))).isEmpty = true →
      (unsubByPref sendRes s p).1.clientId = [] ∧
      (unsubByPref sendRes s p).1.connected = false ∧
      (s.disconnectCh = true → RtAction.sendDisconnect ∈ (unsubByPref sendRes s p).2.1)) ∧
    (∀ t i, (removeById s.subs t i).isEmpty = true →
      unsubscribeById s t i =
        { s with subs := removeById s.subs t i, connected := false } ∧
      (unsubscribeById s t i).clientId = s.clientId) ∧
    (∀ t, (s.subs.filter (fun kv => !unsubMatch t kv.1)).isEmpty = false →
      (unsubscribe sendRes s (some t)).1.clientId = s.clientId ∧
      (unsubscribe sendRes s (some t)).1.connected = s.connected ∧
      RtAction.sendDisconnect ∉ (unsubscribe sendRes s (some t)).2.1) := by
  refine ⟨?_, ?_, ?_, ?_, ?_⟩
  · unfold unsubscribe disconnect
    by_cases hd : s.disconnectCh <;> simp [hd]
  · intro t hempty
    unfold unsubscribe disconnect
    by_cases hd : s.disconnectCh <;> simp [hempty, hd]
  · intro p hrem hempty
    unfold unsubByPref disconnect
    by_cases hd : s.disconnectCh <;> simp [hrem, hempty, hd]
  · intro t i hempty
    unfold unsubscribeById
    simp [hempty]
  · intro t hleft
    unfold unsubscribe
    by_cases hrem : (s.subs.filter (fun kv => unsubMatch t kv.1)).isEmpty
    · simp [hleft, hrem]
    · have hrem' : (s.subs.filter (fun kv => unsubMatch t kv.1)).isEmpty = false := by
        simpa using hrem
      simp only [hleft, hrem', Bool.not_false, if_false, if_true,
        if_neg Bool.false_ne_true]
      obtain ⟨h1, h2, h3, h4⟩ := submitSubs_keeps_connection sendRes
        { s with subs := s.subs.filter (fun kv => !unsubMatch t kv.1) }
      exact ⟨h1, h2, h4⟩

theorem C4_empty_registry_teardown_witness :
    (unsubscribe (Except.ok ())
        ⟨"abc".data, [("posts".data, [⟨1, 0⟩])], [], 0, true, [], true⟩
        (some "posts".data)).1.clientId = [] ∧
    (unsubscribe (Except.ok ())
        ⟨"abc".data, [("posts".data, [⟨1, 0⟩]), ("logs".data, [⟨2, 0⟩])], [], 0, true, [], true⟩
        (some "posts".data)).1.clientId = "abc".data :=
  ⟨(C4_empty_registry_teardown (Except.ok ())
      ⟨"abc".data, [("posts".data, [⟨1, 0⟩])], [], 0, true, [], true⟩).2.1
      "posts".data (by decide) |>.1,
   (C4_empty_registry_teardown (Except.ok ())
      ⟨"abc".data, [("posts".data, [⟨1, 0⟩]), ("logs".data, [⟨2, 0⟩])], [], 0, true, [], true⟩).2.2.2.2
      "posts".data (by decide) |>.1⟩

/-! Claims about the registry removal by subscription id. -/

/-- Effect of one removal pass on a looked-up bucket: drop the entries with
the removed id and delete the bucket if nothing remains. -/
def pruneBucket (i : Nat) (o : Option (List SubEntry)) : Option (List SubEntry) :=
  o.bind (fun es =>
    let es' := es.filter (fun e => e.id != i)
    if es'.isEmpty then none else some es')

theorem subsGet_cons_hit {kv : Str × List SubEntry} {rest : Subs} {k : Str}
    (h : (kv.1 == k) = true) : subsGet (kv :: rest) k = some kv.2 := by
  simp [subsGet, List.find?_cons, h]

theorem subsGet_cons_miss {kv : Str × List SubEntry} {rest : Subs} {k : Str}
    (h : (kv.1 == k) = false) : subsGet (kv :: rest) k = subsGet rest k := by
  simp [subsGet, List.find?_cons, h]

theorem subsGet_not_mem {subs : Subs} {k : Str} (h : k ∉ subs.map (·.1)) :
    subsGet subs k = none := by
  induction subs with
  | nil => rfl
  | cons kv rest ih =>
    simp only [List.map_cons, List.mem_cons, not_or] at h
    rw [subsGet_cons_miss (by simp [Ne.symm h.1])]
    exact ih h.2

theorem updOne_cons_hit_drop {i : Nat} {k : Str} {kv : Str × List SubEntry}
    {rest : Subs} (hk : (kv.1 == k) = true)
    (he : (kv.2.filter (fun e => e.id != i)).isEmpty = true) :
    updOne i k (kv :: rest) = updOne i k rest := by
  unfold updOne
  rw [List.filterMap_cons]
  simp only [hk, if_true, he]

theorem updOne_cons_hit_keep {i : Nat} {k : Str} {kv : Str × List SubEntry}
    {rest : Subs} (hk : (kv.1 == k) = true)
    (he : (kv.2.filter (fun e => e.id != i)).isEmpty = false) :
    updOne i k (kv :: rest) =
      (kv.1, kv.2.filter (fun e => e.id != i)) :: updOne i k rest := by
  unfold updOne
  rw [List.filterMap_cons]
  simp only [hk, if_true, he, Bool.false_eq_true, if_false]

theorem updOne_cons_miss {i : Nat} {k : Str} {kv : Str × List SubEntry}
    {rest : Subs} (hk : (kv.1 == k) = false) :
    updOne i k (kv :: rest) = kv :: updOne i k rest := by
  unfold updOne
  rw [List.filterMap_cons]
  simp only [hk, Bool.false_eq_true, if_false]

theorem updOne_keys_sub (i : Nat) (k : Str) :
    ∀ subs : Subs, ((updOne i k subs).map (·.1)).Sublist (subs.map (·.1)) := by
  intro subs
  induction subs with
  | nil => simp [updOne]
  | cons kv rest ih =>
    by_cases hk : (kv.1 == k) = true
    · by_cases he : (kv.2.filter (fun e => e.id != i)).isEmpty = true
      · rw [updOne_cons_hit_drop hk he]
        simp only [List.map_cons]
        exact ih.cons _
      · rw [updOne_cons_hit_keep hk (by simpa using he)]
        simp only [List.map_cons]
        exact ih.cons₂ _
    · rw [updOne_cons_miss (by simpa using hk)]
      simp only [List.map_cons]
      exact ih.cons₂ _

theorem updOne_keys_nodup {i : Nat} {k : Str} {subs : Subs}
    (h : (subs.map (·.1)).Nodup) : ((updOne i k subs).map (·.1)).Nodup :=
  (updOne_keys_sub i k subs).nodup h

theorem updOne_subsGet_other {i : Nat} {k and' : Str} (hne : and' ≠ k) :
    ∀ subs : Subs, subsGet (updOne i k subs) and' = subsGet subs and' := by
  intro subs
  induction subs with
  | nil => rfl
  | cons kv rest ih =>
    by_cases hk : (kv.1 == k) = true
    · have hkv : kv.1 = k := by simpa using hk
      have hskip : (kv.1 == and') = false := by simp [hkv, Ne.symm hne]
      by_cases he : (kv.2.filter (fun e => e.id != i)).isEmpty = true
      · rw [updOne_cons_hit_drop hk he, ih, subsGet_cons_miss hskip]
      · rw [updOne_cons_hit_keep hk (by simpa using he),
          subsGet_cons_miss
            (show ((kv.1, kv.2.filter (fun e => e.id != i)).1 == and') = false from by
              simpa using hskip),
          subsGet_cons_miss hskip, ih]
    · have hk2 : (kv.1 == k) = false := by simpa using hk
      rw [updOne_cons_miss hk2]
      by_cases hkk : (kv.1 == and') = true
      · rw [subsGet_cons_hit hkk, subsGet_cons_hit hkk]
      · have hkk2 : (kv.1 == and') = false := by simpa using hkk
        rw [subsGet_cons_miss hkk2, subsGet_cons_miss hkk2, ih]

theorem updOne_subsGet_self {i : Nat} {k : Str} :
    ∀ subs : Subs, (subs.map (·.1)).Nodup →
      subsGet (updOne i k subs) k = pruneBucket i (subsGet subs k) := by
  intro subs
  induction subs with
  | nil => intro _; rfl
  | cons kv rest ih =>
    intro hnd
    simp only [List.map_cons, List.nodup_cons] at hnd
    by_cases hk : (kv.1 == k) = true
    · have hkv : kv.1 = k := by simpa using hk
      by_cases he : (kv.2.filter (fun e => e.id != i)).isEmpty = true
      · rw [updOne_cons_hit_drop hk he]
        have hnm : k ∉ (updOne i k rest).map (·.1) := fun hmem =>
          hnd.1 (hkv ▸ (updOne_keys_sub i k rest).mem hmem)
        rw [subsGet_not_mem hnm, subsGet_cons_hit hk]
        simp only [pruneBucket, Option.some_bind, he, if_true]
      · have he2 : (kv.2.filter (fun e => e.id != i)).isEmpty = false := by
          simpa using he
        rw [updOne_cons_hit_keep hk he2,
          subsGet_cons_hit
            (show ((kv.1, kv.2.filter (fun e => e.id != i)).1 == k) = true from hk),
          subsGet_cons_hit hk]
        simp only [pruneBucket, Option.some_bind, he2, Bool.false_eq_true, if_false]
    · have hk2 : (kv.1 == k) = false := by simpa using hk
      rw [updOne_cons_miss hk2, subsGet_cons_miss hk2, subsGet_cons_miss hk2]
      exact ih hnd.2

theorem foldlUpd_not_mem {i : Nat} {k' : Str} (ks : List Str) :
    ∀ (subs : Subs), k' ∉ ks →
      subsGet (ks.foldl (fun acc k => updOne i k acc) subs) k' = subsGet subs k' := by
  induction ks with
  | nil =>
    intro subs _
    rfl
  | cons a ks ih =>
    intro subs h
    simp only [List.mem_cons, not_or] at h
    rw [List.foldl_cons, ih _ h.2, updOne_subsGet_other h.1]

theorem foldlUpd_mem {i : Nat} {k' : Str} (ks : List Str) :
    ∀ (subs : Subs), ks.Nodup → k' ∈ ks → (subs.map (·.1)).Nodup →
      subsGet (ks.foldl (fun acc k => updOne i k acc) subs) k' =
        pruneBucket i (subsGet subs k') := by
  induction ks with
  | nil =>
    intro subs _ hmem _
    cases hmem
  | cons a ks ih =>
    intro subs hks hmem hnd
    rw [List.foldl_cons]
    rcases List.nodup_cons.mp hks with ⟨hna, hks2⟩
    rcases List.mem_cons.mp hmem with rfl | hmem2
    · rw [foldlUpd_not_mem ks _ hna]
      exact updOne_subsGet_self subs hnd
    · rw [ih _ hks2 hmem2 (updOne_keys_nodup hnd)]
      by_cases hak : k' = a
      · exact absurd (hak ▸ hmem2) hna
      · rw [updOne_subsGet_other hak]

theorem lead_append_last (t k : Str) (c : Char) :
    leadsWith (t ++ [c]) (k ++ [c]) = (k == t || leadsWith (t ++ [c]) k) := by
  rw [Bool.eq_iff_iff]
  simp only [Bool.or_eq_true, beq_iff_eq]
  constructor
  · intro h
    obtain ⟨r, hr⟩ := leadsWith_iff.mp h
    rcases List.eq_nil_or_concat r with rfl | ⟨r2, b, rfl⟩
    · left
      rw [List.append_nil] at hr
      exact (List.append_inj' hr rfl).1
    · right
      rw [List.concat_eq_append, ← List.append_assoc] at hr
      have h2 := List.append_inj' hr rfl
      exact leadsWith_iff.mpr ⟨r2, h2.1⟩
  · intro h
    rcases h with rfl | h
    · exact leadsWith_iff.mpr ⟨[], by simp⟩
    · obtain ⟨r, hr⟩ := leadsWith_iff.mp h
      refine leadsWith_iff.mpr ⟨r ++ [c], ?_⟩
      rw [hr]
      simp

theorem unsubMatch_bare {t : Str} (hq : t.contains '?' = false) (k : Str) :
    unsubMatch t k = (k == t || leadsWith (t ++ ['?']) k) := by
  unfold unsubMatch topicPat
  rw [hq]
  simp only [Bool.false_eq_true, if_false]
  rw [lead_append_last t k '?']
  cases hkt : (k == t) <;> simp

theorem mem_matchingKeys {subs : Subs} {t k : Str} :
    k ∈ matchingKeys subs t ↔ k ∈ subs.map (·.1) ∧ unsubMatch t k = true := by
  unfold matchingKeys
  simp [List.mem_filter]

theorem matchingKeys_nodup {subs : Subs} {t : Str} (h : (subs.map (·.1)).Nodup) :
    (matchingKeys subs t).Nodup := h.filter _

/-- C7: removal by subscription id with a bare topic name acts on exactly
the buckets whose key equals the topic or begins with the topic followed by
a question mark (so keys carrying an options suffix are reached): in those
buckets the entries with the removed id disappear, a bucket emptied by the
removal is deleted, and every other bucket (and every entry with a
different id, through the filter in pruneBucket) is untouched. -/
theorem C7_remove_by_id_buckets (subs : Subs) (t : Str) (i : Nat) (k : Str)
    (hnd : (subs.map (·.1)).Nodup) (hq : t.contains '?' = false) :
    subsGet (removeById subs t i) k =
      if k = t ∨ leadsWith (t ++ ['?']) k = true then
        pruneBucket i (subsGet subs k)
      else subsGet subs k := by
  unfold removeById
  by_cases hcond : k = t ∨ leadsWith (t ++ ['?']) k = true
  · rw [if_pos hcond]
    by_cases hmem : k ∈ subs.map (·.1)
    · have hmk : k ∈ matchingKeys subs t := by
        rw [mem_matchingKeys]
        refine ⟨hmem, ?_⟩
        rw [unsubMatch_bare hq]
        rcases hcond with rfl | hlw
        · simp
        · simp [hlw]
      exact foldlUpd_mem _ subs (matchingKeys_nodup hnd) hmk hnd
    · have h1 : subsGet subs k = none := subsGet_not_mem hmem
      have h2 : k ∉ matchingKeys subs t := fun hc => hmem (mem_matchingKeys.mp hc).1
      rw [foldlUpd_not_mem _ subs h2, h1]
      rfl
  · rw [if_neg hcond]
    have h2 : k ∉ matchingKeys subs t := by
      intro hc
      have hm := (mem_matchingKeys.mp hc).2
      rw [unsubMatch_bare hq] at hm
      simp only [Bool.or_eq_true, beq_iff_eq] at hm
      exact hcond hm
    exact foldlUpd_not_mem _ subs h2

theorem C7_remove_by_id_buckets_witness :
    subsGet (removeById
        [("posts".data, [⟨1, 0⟩, ⟨2, 0⟩]),
         ("posts".data ++ "?options=x".data, [⟨1, 5⟩]),
         ("logs".data, [⟨3, 0⟩])] "posts".data 1)
      ("posts".data ++ "?options=x".data) = none ∧
    subsGet (removeById
        [("posts".data, [⟨1, 0⟩, ⟨2, 0⟩]),
         ("posts".data ++ "?options=x".data, [⟨1, 5⟩]),
         ("logs".data, [⟨3, 0⟩])] "posts".data 1)
      "logs".data = some [⟨3, 0⟩] :=
  ⟨(C7_remove_by_id_buckets
      [("posts".data, [⟨1, 0⟩, ⟨2, 0⟩]),
       ("posts".data ++ "?options=x".data, [⟨1, 5⟩]),
       ("logs".data, [⟨3, 0⟩])] "posts".data 1
      ("posts".data ++ "?options=x".data) (by decide) (by decide)).trans (by decide),
   (C7_remove_by_id_buckets
      [("posts".data, [⟨1, 0⟩, ⟨2, 0⟩]),
       ("posts".data ++ "?options=x".data, [⟨1, 5⟩]),
       ("logs".data, [⟨3, 0⟩])] "posts".data 1
      "logs".data (by decide) (by decide)).trans (by decide)⟩

/-! Claims about the frame scanner. -/

/-- Wire bytes of the control frame used by the two-chunk property. -/
def c5Input : Str := "event: PB_CONNECT\nid: abc123\n\n".data

/-- Events emitted when the control frame is fed to a fresh scanner in two
chunks split at position i. -/
def twoChunkEvents (i : Nat) : List SseEvent :=
  let r1 := feedChunk ScanState.init (c5Input.take i)
  let r2 := feedChunk r1.1 (c5Input.drop i)
  r1.2 ++ r2.2

theorem trimEndCR_concat (l : Str) : trimEndCR (l ++ ['\r']) = trimEndCR l := by
  unfold trimEndCR
  rw [List.reverse_append]
  rfl

theorem drainBufF_congr : ∀ (fuel fuel2 : Nat) (buf : Str) (f : SseEvent),
    buf.length ≤ fuel → buf.length ≤ fuel2 →
    drainBufF fuel buf f = drainBufF fuel2 buf f := by
  intro fuel
  induction fuel with
  | zero =>
    intro fuel2 buf f h1 h2
    have hb : buf = [] := List.length_eq_zero.mp (Nat.le_zero.mp h1)
    subst hb
    cases fuel2 <;> rfl
  | succ fuel ih =>
    intro fuel2 buf f h1 h2
    cases fuel2 with
    | zero =>
      have hb : buf = [] := List.length_eq_zero.mp (Nat.le_zero.mp h2)
      subst hb
      rfl
    | succ fuel2 =>
      show drainBufF (fuel + 1) buf f = drainBufF (fuel2 + 1) buf f
      unfold drainBufF
      cases hs : splitAtNl buf with
      | none => rfl
      | some pr =>
        obtain ⟨line, rest⟩ := pr
        have hlt := splitAtNl_rest_lt hs
        have hq := ih fuel2 rest (lineStep (trimEndCR line) f).1 (by omega) (by omega)
        show ((drainBufF fuel rest (lineStep (trimEndCR line) f).1).1,
              (drainBufF fuel rest (lineStep (trimEndCR line) f).1).2.1,
              (lineStep (trimEndCR line) f).2.toList ++
                (drainBufF fuel rest (lineStep (trimEndCR line) f).1).2.2) =
            ((drainBufF fuel2 rest (lineStep (trimEndCR line) f).1).1,
             (drainBufF fuel2 rest (lineStep (trimEndCR line) f).1).2.1,
             (lineStep (trimEndCR line) f).2.toList ++
               (drainBufF fuel2 rest (lineStep (trimEndCR line) f).1).2.2)
        rw [hq]

theorem drainBuf_step {l : Str} (rest : Str) (f : SseEvent) (h : '\n' ∉ l) :
    drainBuf (l ++ '\n' :: rest) f =
      (let p := lineStep (trimEndCR l) f
       let q := drainBuf rest p.1
       (q.1, q.2.1, p.2.toList ++ q.2.2)) := by
  unfold drainBuf
  have hlen : (l ++ '\n' :: rest).length = l.length + rest.length + 1 := by
    rw [List.length_append, List.length_cons]
    omega
  rw [hlen]
  simp only [drainBufF, splitAtNl_append h]
  rw [drainBufF_congr (l.length + rest.length) rest.length rest _ (by omega)
    (Nat.le_refl _)]

/-- C5: for every split of the control frame bytes into two chunks, feeding
both chunks to a fresh scanner emits exactly one completed event carrying
type PB_CONNECT, id abc123 and empty data; in general processing a line is
insensitive to a trailing carriage return, an empty line emits an event
exactly when the type or data under construction is non-empty and then
clears all three fields, and the values after the event:, data: and id:
markers are trimmed (data accumulating with newline separators). -/
theorem C5_two_chunk_parse :
    (∀ i, i ≤ c5Input.length →
      twoChunkEvents i = [⟨"PB_CONNECT".data, [], "abc123".data⟩]) ∧
    (∀ (l rest : Str) (f : SseEvent), '\n' ∉ l →
      drainBuf (l ++ '\r' :: '\n' :: rest) f = drainBuf (l ++ '\n' :: rest) f) ∧
    (∀ f, lineStep [] f =
      (SseEvent.blank, if f.etype.isEmpty && f.edata.isEmpty then none else some f)) ∧
    (∀ v f, lineStep ("event:".data ++ v) f = ({ f with etype := rustTrim v }, none)) ∧
    (∀ v f, lineStep ("id:".data ++ v) f = ({ f with eid := rustTrim v }, none)) ∧
    (∀ v f, lineStep ("data:".data ++ v) f =
      ({ f with edata := if f.edata.isEmpty then rustTrim v
                         else f.edata ++ '\n' :: rustTrim v }, none)) := by
  refine ⟨by decide, ?_, ?_, fun v f => rfl, fun v f => rfl, fun v f => rfl⟩
  · intro l rest f hnl
    have hcr : '\n' ∉ l ++ ['\r'] := by
      simp only [List.mem_append, List.mem_singleton]
      rintro (h | h)
      · exact hnl h
      · cases h
    have e1 : l ++ '\r' :: '\n' :: rest = (l ++ ['\r']) ++ '\n' :: rest := by
      simp
    rw [e1, drainBuf_step rest f hcr, drainBuf_step rest f hnl, trimEndCR_concat]
  · intro f
    cases he : f.etype.isEmpty <;> cases hd : f.edata.isEmpty <;>
      simp [lineStep, he, hd]

theorem C5_two_chunk_parse_witness :
    twoChunkEvents 7 = [⟨"PB_CONNECT".data, [], "abc123".data⟩] ∧
    drainBuf ('x' :: '\r' :: '\n' :: []) SseEvent.blank =
      drainBuf ('x' :: '\n' :: []) SseEvent.blank :=
  ⟨C5_two_chunk_parse.1 7 (by decide),
   C5_two_chunk_parse.2.1 ['x'] [] SseEvent.blank (by decide)⟩

/-! Injectivity of the percent encoding, established through an explicit
decoder: each encoded character decodes back to the UTF-8 bytes of the
original, and the UTF-8 byte stream decodes back to the code points. -/

/-- Value of an uppercase hexadecimal digit character. -/
def hexVal (c : Char) : Option Nat :=
  if 48 ≤ c.toNat ∧ c.toNat ≤ 57 then some (c.toNat - 48)
  else if 65 ≤ c.toNat ∧ c.toNat ≤ 70 then some (c.toNat - 55)
  else none

/-- Decoder of a percent-encoded stream back to bytes: a percent sign
introduces two hexadecimal digits, any other character stands for its own
code. -/
def decodeGroups : List Char → Option (List Nat)
  | [] => some []
  | c :: rest =>
    if c = '%' then
      match rest with
      | hc :: lc :: rest2 =>
        match hexVal hc, hexVal lc with
        | some a, some b => (decodeGroups rest2).map (fun bs => (16 * a + b) :: bs)
        | _, _ => none
      | _ => none
    else (decodeGroups rest).map (fun bs => c.toNat :: bs)

/-- Decoder of one UTF-8 encoded code point: the leading byte determines
the sequence length, the continuation bytes contribute six bits each. -/
def utf8DecodeOne : List Nat → Option (Nat × List Nat)
  | [] => none
  | b0 :: rest =>
    if b0 < 0x80 then some (b0, rest)
    else if b0 < 0xE0 then
      match rest with
      | b1 :: r => some ((b0 - 0xC0) * 64 + (b1 - 0x80), r)
      | [] => none
    else if b0 < 0xF0 then
      match rest with
      | b1 :: b2 :: r => some ((b0 - 0xE0) * 4096 + (b1 - 0x80) * 64 + (b2 - 0x80), r)
      | _ => none
    else
      match rest with
      | b1 :: b2 :: b3 :: r =>
        some ((b0 - 0xF0) * 262144 + (b1 - 0x80) * 4096 + (b2 - 0x80) * 64 +
          (b3 - 0x80), r)
      | _ => none

/-- Decoder of a UTF-8 byte stream back to code points, iterated with a
bound that the byte length always covers. -/
def utf8DecodeAllF : Nat → List Nat → Option (List Nat)
  | _, [] => some []
  | 0, _ :: _ => none
  | fuel + 1, b :: rest =>
    match utf8DecodeOne (b :: rest) with
    | none => none
    | some (n, r2) => (utf8DecodeAllF fuel r2).map (n :: ·)

theorem hexVal_hexUpper : ∀ d, d < 16 → hexVal (hexUpper d) = some d := by decide

theorem decodeGroups_encByte {b : Nat} (r : List Char) (hb : b < 256) :
    decodeGroups (encByte b ++ r) = (decodeGroups r).map (fun bs => b :: bs) := by
  have h1 : hexVal (hexUpper (b / 16)) = some (b / 16) := hexVal_hexUpper _ (by omega)
  have h2 : hexVal (hexUpper (b % 16)) = some (b % 16) := hexVal_hexUpper _ (by omega)
  show (match hexVal (hexUpper (b / 16)), hexVal (hexUpper (b % 16)) with
    | some a, some b2 => (decodeGroups r).map (fun bs => (16 * a + b2) :: bs)
    | _, _ => none) = (decodeGroups r).map (fun bs => b :: bs)
  rw [h1, h2]
  show (decodeGroups r).map (fun bs => (16 * (b / 16) + b % 16) :: bs) = _
  have hb2 : 16 * (b / 16) + b % 16 = b := by omega
  rw [hb2]

theorem decodeGroups_lit {c : Char} (r : List Char) (hc : c ≠ '%') :
    decodeGroups (c :: r) = (decodeGroups r).map (fun bs => c.toNat :: bs) := by
  rw [decodeGroups.eq_def]
  simp [hc]

theorem decodeGroups_encBytes : ∀ (bs : List Nat) (r : List Char),
    (∀ b ∈ bs, b < 256) →
    decodeGroups (bs.flatMap encByte ++ r) = (decodeGroups r).map (fun l => bs ++ l) := by
  intro bs
  induction bs with
  | nil =>
    intro r _
    simp
  | cons b bs ih =>
    intro r hb
    rw [List.flatMap_cons, List.append_assoc, decodeGroups_encByte _ (hb b (by simp)),
      ih r (fun x hx => hb x (by simp [hx])), Option.map_map]
    rfl

theorem unreserved_ne_pct {c : Char} (h : unreserved c = true) : c ≠ '%' := by
  intro hc
  rw [hc] at h
  exact absurd h (by decide)

theorem unreserved_toNat_lt {c : Char} (h : unreserved c = true) : c.toNat < 0x80 := by
  unfold unreserved at h
  simp only [Bool.or_eq_true, Bool.and_eq_true, decide_eq_true_eq, beq_iff_eq] at h
  omega

theorem char_toNat_lt (c : Char) : c.toNat < 0x110000 := by
  have h := c.valid
  unfold UInt32.isValidChar Nat.isValidChar at h
  rcases h with h | ⟨h1, h2⟩ <;> simp [Char.toNat] <;> omega

theorem utf8Bytes_lt {n : Nat} (hn : n < 0x110000) : ∀ b ∈ utf8Bytes n, b < 256 := by
  intro b hb
  unfold utf8Bytes at hb
  by_cases h1 : n < 0x80
  · rw [if_pos h1] at hb
    simp only [List.mem_singleton] at hb
    omega
  · by_cases h2 : n < 0x800
    · rw [if_neg h1, if_pos h2] at hb
      simp only [List.mem_cons, List.not_mem_nil, or_false] at hb
      rcases hb with rfl | rfl <;> omega
    · by_cases h3 : n < 0x10000
      · rw [if_neg h1, if_neg h2, if_pos h3] at hb
        simp only [List.mem_cons, List.not_mem_nil, or_false] at hb
        rcases hb with rfl | rfl | rfl <;> omega
      · rw [if_neg h1, if_neg h2, if_neg h3] at hb
        simp only [List.mem_cons, List.not_mem_nil, or_false] at hb
        rcases hb with rfl | rfl | rfl | rfl <;> omega

theorem utf8DecodeOne_bytes (n : Nat) (bs : List Nat) :
    utf8DecodeOne (utf8Bytes n ++ bs) = some (n, bs) := by
  unfold utf8Bytes
  by_cases h1 : n < 0x80
  · rw [if_pos h1]
    show utf8DecodeOne (n :: bs) = _
    simp only [utf8DecodeOne]
    rw [if_pos h1]
  · by_cases h2 : n < 0x800
    · rw [if_neg h1, if_pos h2]
      show utf8DecodeOne ((0xC0 + n / 64) :: (0x80 + n % 64) :: bs) = _
      simp only [utf8DecodeOne]
      rw [if_neg (by omega), if_pos (by omega)]
      show some ((0xC0 + n / 64 - 0xC0) * 64 + (0x80 + n % 64 - 0x80), bs) = _
      have he : (0xC0 + n / 64 - 0xC0) * 64 + (0x80 + n % 64 - 0x80) = n := by omega
      rw [he]
    · by_cases h3 : n < 0x10000
      · rw [if_neg h1, if_neg h2, if_pos h3]
        show utf8DecodeOne
            ((0xE0 + n / 4096) :: (0x80 + n / 64 % 64) :: (0x80 + n % 64) :: bs) = _
        simp only [utf8DecodeOne]
        rw [if_neg (by omega), if_neg (by omega), if_pos (by omega)]
        show some ((0xE0 + n / 4096 - 0xE0) * 4096 + (0x80 + n / 64 % 64 - 0x80) * 64 +
          (0x80 + n % 64 - 0x80), bs) = _
        have he : (0xE0 + n / 4096 - 0xE0) * 4096 + (0x80 + n / 64 % 64 - 0x80) * 64 +
            (0x80 + n % 64 - 0x80) = n := by omega
        rw [he]
      · rw [if_neg h1, if_neg h2, if_neg h3]
        show utf8DecodeOne
            ((0xF0 + n / 262144) :: (0x80 + n / 4096 % 64) :: (0x80 + n / 64 % 64) ::
              (0x80 + n % 64) :: bs) = _
        simp only [utf8DecodeOne]
        rw [if_neg (by omega), if_neg (by omega), if_neg (by omega)]
        show some ((0xF0 + n / 262144 - 0xF0) * 262144 +
          (0x80 + n / 4096 % 64 - 0x80) * 4096 + (0x80 + n / 64 % 64 - 0x80) * 64 +
          (0x80 + n % 64 - 0x80), bs) = _
        have he : (0xF0 + n / 262144 - 0xF0) * 262144 +
            (0x80 + n / 4096 % 64 - 0x80) * 4096 +
            (0x80 + n / 64 % 64 - 0x80) * 64 + (0x80 + n % 64 - 0x80) = n := by omega
        rw [he]

theorem utf8Bytes_ne_nil (n : Nat) : utf8Bytes n ≠ [] := by
  unfold utf8Bytes
  by_cases h1 : n < 0x80
  · rw [if_pos h1]
    simp
  · by_cases h2 : n < 0x800
    · rw [if_neg h1, if_pos h2]
      simp
    · by_cases h3 : n < 0x10000
      · rw [if_neg h1, if_neg h2, if_pos h3]
        simp
      · rw [if_neg h1, if_neg h2, if_neg h3]
        simp

theorem utf8DecodeAllF_flat : ∀ (s : Str) (fuel : Nat),
    (s.flatMap (fun c => utf8Bytes c.toNat)).length ≤ fuel →
    utf8DecodeAllF fuel (s.flatMap (fun c => utf8Bytes c.toNat)) =
      some (s.map (·.toNat)) := by
  intro s
  induction s with
  | nil =>
    intro fuel _
    cases fuel <;> rfl
  | cons c cs ih =>
    intro fuel hlen
    rw [List.flatMap_cons] at hlen ⊢
    cases hb : utf8Bytes c.toNat with
    | nil => exact absurd hb (utf8Bytes_ne_nil _)
    | cons b r =>
      rw [hb] at hlen
      have hpos : 1 ≤ fuel := by
        simp only [List.length_append, List.length_cons] at hlen
        omega
      cases fuel with
      | zero => omega
      | succ fuel =>
        have hone := utf8DecodeOne_bytes c.toNat (cs.flatMap (fun c => utf8Bytes c.toNat))
        rw [hb] at hone
        rw [List.cons_append]
        show (match utf8DecodeOne (b :: (r ++ cs.flatMap (fun c => utf8Bytes c.toNat))) with
          | none => none
          | some (n, r2) => (utf8DecodeAllF fuel r2).map (n :: ·)) = _
        rw [List.cons_append] at hone
        rw [hone]
        show ((utf8DecodeAllF fuel (cs.flatMap (fun c => utf8Bytes c.toNat))).map
          (c.toNat :: ·)) = _
        rw [ih fuel (by
          simp only [List.length_append, List.length_cons] at hlen
          omega)]
        rfl

theorem decodeGroups_encChar (c : Char) (r : List Char) :
    decodeGroups (encChar c ++ r) =
      (decodeGroups r).map (fun bs => utf8Bytes c.toNat ++ bs) := by
  unfold encChar
  by_cases hu : unreserved c
  · rw [if_pos hu]
    show decodeGroups (c :: r) = _
    rw [decodeGroups_lit r (unreserved_ne_pct hu)]
    have he : utf8Bytes c.toNat = [c.toNat] := by
      unfold utf8Bytes
      rw [if_pos (unreserved_toNat_lt hu)]
    rw [he]
    rfl
  · rw [if_neg hu]
    exact decodeGroups_encBytes _ r (utf8Bytes_lt (char_toNat_lt c))

theorem decodeGroups_urlEncode (s : Str) :
    decodeGroups (urlEncode s) = some (s.flatMap (fun c => utf8Bytes c.toNat)) := by
  induction s with
  | nil => rfl
  | cons c cs ih =>
    show decodeGroups (encChar c ++ urlEncode cs) = _
    rw [decodeGroups_encChar, ih, List.flatMap_cons]
    rfl

theorem urlEncode_inj {s1 s2 : Str} (h : urlEncode s1 = urlEncode s2) : s1 = s2 := by
  have h1 := decodeGroups_urlEncode s1
  have h2 := decodeGroups_urlEncode s2
  rw [h, h2] at h1
  have hflat : (s2.flatMap fun c => utf8Bytes c.toNat) =
      s1.flatMap fun c => utf8Bytes c.toNat := Option.some.inj h1
  have h3 := utf8DecodeAllF_flat s1 (s1.flatMap fun c => utf8Bytes c.toNat).length
    (Nat.le_refl _)
  have h4 := utf8DecodeAllF_flat s2 (s2.flatMap fun c => utf8Bytes c.toNat).length
    (Nat.le_refl _)
  rw [hflat] at h4
  rw [h3] at h4
  have hmap : s1.map (·.toNat) = s2.map (·.toNat) := Option.some.inj h4
  have hinj : Function.Injective (fun c : Char => c.toNat) := by
    intro a b hab
    have hofn := congrArg Char.ofNat hab
    rwa [Char.ofNat_toNat, Char.ofNat_toNat] at hofn
  exact List.map_injective_iff.mpr hinj hmap

instance : IsTotal (Str × JValue) keyLE :=
  ⟨fun a b => le_total a.1 b.1⟩

instance : IsTrans (Str × JValue) keyLE :=
  ⟨fun _ _ _ h1 h2 => le_trans h1 h2⟩

theorem sorted_perm_nodup_eq :
    ∀ {l1 l2 : List (Str × JValue)}, l1.Perm l2 → l1.Sorted keyLE →
      l2.Sorted keyLE → (l1.map Prod.fst).Nodup → l1 = l2 := by
  intro l1
  induction l1 with
  | nil =>
    intro l2 hp _ _ _
    exact hp.nil_eq
  | cons x t1 ih =>
    intro l2 hp hs1 hs2 hnd
    cases l2 with
    | nil => cases hp.symm.nil_eq
    | cons y t2 =>
      simp only [List.map_cons, List.nodup_cons] at hnd
      have hxy : x = y := by
        have hxin : x ∈ y :: t2 := hp.mem_iff.mp (List.mem_cons_self x t1)
        have hyin : y ∈ x :: t1 := hp.symm.mem_iff.mp (List.mem_cons_self y t2)
        rcases List.mem_cons.mp hyin with h1 | h1
        · exact h1.symm
        · rcases List.mem_cons.mp hxin with h2 | h2
          · exact h2
          · have hle1 : keyLE x y := (List.sorted_cons.mp hs1).1 y h1
            have hle2 : keyLE y x := (List.sorted_cons.mp hs2).1 x h2
            have hkey : x.1 = y.1 := le_antisymm hle1 hle2
            have hmem : x.1 ∈ t1.map Prod.fst := by
              rw [hkey]
              exact List.mem_map_of_mem _ h1
            exact absurd hmem hnd.1
      subst hxy
      have ht := ih hp.cons_inv (List.sorted_cons.mp hs1).2 (List.sorted_cons.mp hs2).2
        hnd.2
      rw [ht]

theorem sortByKey_perm_eq {l1 l2 : List (Str × JValue)} (hp : l1.Perm l2)
    (hnd : (l1.map Prod.fst).Nodup) : sortByKey l1 = sortByKey l2 := by
  have hp2 : (sortByKey l1).Perm (sortByKey l2) :=
    (List.perm_insertionSort keyLE l1).trans
      (hp.trans (List.perm_insertionSort keyLE l2).symm)
  have hnd1 : ((sortByKey l1).map Prod.fst).Nodup :=
    (((List.perm_insertionSort keyLE l1).map Prod.fst).nodup_iff).mpr hnd
  exact sorted_perm_nodup_eq hp2 (List.sorted_insertionSort keyLE l1)
    (List.sorted_insertionSort keyLE l2) hnd1

theorem subscribeKey_some (t : Str) (o : SendOpts) :
    subscribeKey t (some o) =
      t ++ (if t.contains '?' then ['&'] else ['?']) ++ "options=".data ++
        urlEncode (serializeOpts o) := rfl

/-- C3 counterexample: two option values that differ only in a field
outside query and headers (the HTTP method) derive the same topic key, so
distinct option values do not always derive distinct keys; and for a topic
name that already contains a question mark the key joins the options with
an ampersand, not with the claimed question-mark marker. -/
theorem C3_key_not_injective :
    (subscribeKey "posts".data (some ⟨"GET".data, [], none, [], none⟩) =
      subscribeKey "posts".data (some ⟨"POST".data, [], none, [], none⟩) ∧
     (⟨"GET".data, [], none, [], none⟩ : SendOpts) ≠
      ⟨"POST".data, [], none, [], none⟩) ∧
    subscribeKey "a?b".data (some ⟨"GET".data, [], none, [], none⟩) ≠
      "a?b".data ++ "?options=".data ++
        urlEncode (serializeOpts ⟨"GET".data, [], none, [], none⟩) := by
  refine ⟨⟨rfl, ?_⟩, by decide⟩
  intro h
  have hm := congrArg SendOpts.method h
  exact absurd hm (by decide)


/-! Injectivity of the compact JSON serialization, established through a
recursive-descent reader: every serialized value, followed by a delimiter,
reads back to itself. -/

/-- Value of a decimal digit character. -/
def digitVal (c : Char) : Option Nat :=
  if 48 ≤ c.toNat ∧ c.toNat ≤ 57 then some (c.toNat - 48) else none

/-- Greedy decimal number reader with an accumulator. -/
def parseDigitsAux : List Char → Nat → Nat × List Char
  | [], acc => (acc, [])
  | c :: r, acc =>
    match digitVal c with
    | some d => parseDigitsAux r (10 * acc + d)
    | none => (acc, c :: r)

/-- Value of a lowercase hexadecimal digit character. -/
def hexLowVal (c : Char) : Option Nat :=
  if 48 ≤ c.toNat ∧ c.toNat ≤ 57 then some (c.toNat - 48)
  else if 97 ≤ c.toNat ∧ c.toNat ≤ 102 then some (c.toNat - 87)
  else none

/-- Reader of a JSON string literal body up to the closing quote, undoing
the escapes the serializer produces. -/
def parseStrBody : List Char → Option (Str × List Char)
  | [] => none
  | c :: r =>
    if c = '"' then some ([], r)
    else if c = '\\' then
      match r with
      | [] => none
      | e :: r2 =>
        if e = '"' then (parseStrBody r2).map (fun p => ('"' :: p.1, p.2))
        else if e = '\\' then (parseStrBody r2).map (fun p => ('\\' :: p.1, p.2))
        else if e = 'b' then (parseStrBody r2).map (fun p => (Char.ofNat 8 :: p.1, p.2))
        else if e = 't' then (parseStrBody r2).map (fun p => (Char.ofNat 9 :: p.1, p.2))
        else if e = 'n' then (parseStrBody r2).map (fun p => (Char.ofNat 10 :: p.1, p.2))
        else if e = 'f' then (parseStrBody r2).map (fun p => (Char.ofNat 12 :: p.1, p.2))
        else if e = 'r' then (parseStrBody r2).map (fun p => (Char.ofNat 13 :: p.1, p.2))
        else if e = 'u' then
          match r2 with
          | h1 :: h2 :: h3 :: h4 :: r3 =>
            match hexLowVal h1, hexLowVal h2, hexLowVal h3, hexLowVal h4 with
            | some a, some b, some c2, some d =>
              (parseStrBody r3).map
                (fun p => (Char.ofNat (4096 * a + 256 * b + 16 * c2 + d) :: p.1, p.2))
            | _, _, _, _ => none
          | _ => none
        else none
    else (parseStrBody r).map (fun p => (c :: p.1, p.2))

mutual

/-- Reader of one serialized value. -/
def parseVal : Nat → List Char → Option (JValue × List Char)
  | 0, _ => none
  | fuel + 1, l =>
    match l with
    | [] => none
    | c :: r =>
      if c = 'n' then (stripPre "ull".data r).map (fun r2 => (JValue.null, r2))
      else if c = 't' then (stripPre "rue".data r).map (fun r2 => (JValue.bool true, r2))
      else if c = 'f' then (stripPre "alse".data r).map (fun r2 => (JValue.bool false, r2))
      else if c = '"' then (parseStrBody r).map (fun p => (JValue.str p.1, p.2))
      else if c = '[' then (parseItems fuel r).map (fun p => (JValue.arr p.1, p.2))
      else if c = lcurl then (parseFields fuel r).map (fun p => (JValue.obj p.1, p.2))
      else if c = '-' then
        match r with
        | [] => none
        | d :: _ =>
          match digitVal d with
          | some _ =>
            let p := parseDigitsAux r 0
            match p.1 with
            | 0 => none
            | m + 1 => some (JValue.num (Int.negSucc m), p.2)
          | none => none
      else
        match digitVal c with
        | some _ =>
          let p := parseDigitsAux (c :: r) 0
          some (JValue.num (Int.ofNat p.1), p.2)
        | none => none

/-- Reader of the remaining array elements including the closing bracket. -/
def parseItems : Nat → List Char → Option (List JValue × List Char)
  | 0, _ => none
  | fuel + 1, l =>
    match l with
    | [] => none
    | c :: r =>
      if c = ']' then some ([], r)
      else
        match parseVal fuel (c :: r) with
        | none => none
        | some (v, r1) =>
          match r1 with
          | ',' :: r2 =>
            match parseItems fuel r2 with
            | none => none
            | some (vs, r3) => some (v :: vs, r3)
          | ']' :: r2 => some ([v], r2)
          | _ => none

/-- Reader of the remaining object members including the closing brace. -/
def parseFields : Nat → List Char → Option (List (Str × JValue) × List Char)
  | 0, _ => none
  | fuel + 1, l =>
    match l with
    | [] => none
    | c :: r =>
      if c = rcurl then some ([], r)
      else if c = '"' then
        match parseStrBody r with
        | none => none
        | some (k, r1) =>
          match r1 with
          | ':' :: r2 =>
            match parseVal fuel r2 with
            | none => none
            | some (v, r3) =>
              match r3 with
              | ',' :: r4 =>
                match parseFields fuel r4 with
                | none => none
                | some (fs, r5) => some ((k, v) :: fs, r5)
              | c2 :: r4 =>
                if c2 = rcurl then some ([(k, v)], r4) else none
              | [] => none
          | _ => none
      else none

end

mutual

/-- Size bound used as reader iteration budget for a value. -/
def sizeJV : JValue → Nat
  | JValue.null => 1
  | JValue.bool _ => 1
  | JValue.num _ => 1
  | JValue.str _ => 1
  | JValue.arr es => 1 + sizeJL es
  | JValue.obj fs => 1 + sizeJF fs

/-- Size bound for array elements. -/
def sizeJL : List JValue → Nat
  | [] => 1
  | v :: vs => 1 + sizeJV v + sizeJL vs

/-- Size bound for object members. -/
def sizeJF : List (Str × JValue) → Nat
  | [] => 1
  | (_, v) :: fs => 1 + sizeJV v + sizeJF fs

end

/-- Delimiter condition after a serialized value: the remainder must not
begin with a decimal digit, so the number reader stops in the right
place.  Every delimiter the serializer emits (comma, closing brackets, end
of input) satisfies it. -/
def delimOk : List Char → Prop
  | [] => True
  | c :: _ => digitVal c = none

theorem digitVal_digitChar : ∀ d, d < 10 → digitVal (digitChar d) = some d := by decide

theorem digitChar_not_marker : ∀ d, d < 10 →
    digitChar d ≠ 'n' ∧ digitChar d ≠ 't' ∧ digitChar d ≠ 'f' ∧ digitChar d ≠ '"' ∧
    digitChar d ≠ '[' ∧ digitChar d ≠ lcurl ∧ digitChar d ≠ '-' ∧ digitChar d ≠ ']' ∧
    digitChar d ≠ ',' ∧ digitChar d ≠ rcurl := by decide

theorem hexLowVal_hexLower : ∀ d, d < 16 → hexLowVal (hexLower d) = some d := by decide

theorem natChars_head : ∀ n : Nat, ∃ d r, d < 10 ∧ natChars n = digitChar d :: r := by
  intro n
  induction n using Nat.strong_induction_on with
  | _ n ih =>
    by_cases h : n < 10
    · refine ⟨n, [], h, ?_⟩
      rw [natChars, dif_pos h]
    · obtain ⟨d, r, hd, hr⟩ := ih (n / 10) (Nat.div_lt_self (by omega) (by omega))
      refine ⟨d, r ++ [digitChar (n % 10)], hd, ?_⟩
      rw [natChars, dif_neg h, hr, List.cons_append]

theorem parseDigitsAux_stop {rest : List Char} (h : delimOk rest) (m : Nat) :
    parseDigitsAux rest m = (m, rest) := by
  cases rest with
  | nil => rfl
  | cons c r =>
    have hc : digitVal c = none := h
    unfold parseDigitsAux
    rw [hc]

theorem parseDigitsAux_natChars : ∀ (n acc : Nat) (rest : List Char),
    parseDigitsAux (natChars n ++ rest) acc =
      parseDigitsAux rest (acc * 10 ^ (natChars n).length + n) := by
  intro n
  induction n using Nat.strong_induction_on with
  | _ n ih =>
    intro acc rest
    by_cases h : n < 10
    · rw [natChars, dif_pos h]
      show parseDigitsAux (digitChar n :: rest) acc = _
      rw [parseDigitsAux.eq_def]
      simp only [digitVal_digitChar n h]
      have he : 10 * acc + n = acc * 10 ^ (List.length [digitChar n]) + n := by
        simp [Nat.mul_comm]
      rw [he]
    · rw [natChars, dif_neg h, List.append_assoc,
        ih (n / 10) (Nat.div_lt_self (by omega) (by omega))]
      show parseDigitsAux (digitChar (n % 10) :: rest) _ = _
      rw [parseDigitsAux.eq_def]
      simp only [digitVal_digitChar (n % 10) (by omega)]
      have h10 : 10 * (n / 10) + n % 10 = n := by omega
      have harith : 10 * (acc * 10 ^ (natChars (n / 10)).length + n / 10) + n % 10 =
          acc * (10 ^ (natChars (n / 10)).length * 10) + (10 * (n / 10) + n % 10) := by
        ring
      rw [harith, h10, List.length_append, List.length_singleton, pow_succ]

theorem parseDigits_natChars {rest : List Char} (h : delimOk rest) (n : Nat) :
    parseDigitsAux (natChars n ++ rest) 0 = (n, rest) := by
  rw [parseDigitsAux_natChars, parseDigitsAux_stop h]
  simp

theorem parseStrBody_escChar (c : Char) (X : List Char) (s : Str) (rest : List Char)
    (ih : parseStrBody X = some (s, rest)) :
    parseStrBody (escChar c ++ X) = some (c :: s, rest) := by
  unfold escChar
  by_cases h1 : c = '"'
  · subst h1
    rw [if_pos rfl]
    show parseStrBody ('\\' :: '"' :: X) = _
    rw [parseStrBody.eq_def]
    simp only [reduceIte]
    rw [ih]
    rfl
  · rw [if_neg h1]
    by_cases h2 : c = '\\'
    · subst h2
      rw [if_pos rfl]
      show parseStrBody ('\\' :: '\\' :: X) = _
      rw [parseStrBody.eq_def]
      simp only [reduceIte]
      rw [ih]
      rfl
    · rw [if_neg h2]
      by_cases h3 : c.toNat < 0x20
      · rw [if_pos h3]
        by_cases e8 : c.toNat = 8
        · rw [if_pos e8]
          show parseStrBody ('\\' :: 'b' :: X) = _
          rw [parseStrBody.eq_def]
          simp only [reduceIte]
          rw [ih]
          have hc : Char.ofNat 8 = c := by rw [← e8, Char.ofNat_toNat]
          rw [hc]
          rfl
        · rw [if_neg e8]
          by_cases e9 : c.toNat = 9
          · rw [if_pos e9]
            show parseStrBody ('\\' :: 't' :: X) = _
            rw [parseStrBody.eq_def]
            simp only [reduceIte]
            rw [ih]
            have hc : Char.ofNat 9 = c := by rw [← e9, Char.ofNat_toNat]
            rw [hc]
            rfl
          · rw [if_neg e9]
            by_cases e10 : c.toNat = 10
            · rw [if_pos e10]
              show parseStrBody ('\\' :: 'n' :: X) = _
              rw [parseStrBody.eq_def]
              simp only [reduceIte]
              rw [ih]
              have hc : Char.ofNat 10 = c := by rw [← e10, Char.ofNat_toNat]
              rw [hc]
              rfl
            · rw [if_neg e10]
              by_cases e12 : c.toNat = 12
              · rw [if_pos e12]
                show parseStrBody ('\\' :: 'f' :: X) = _
                rw [parseStrBody.eq_def]
                simp only [reduceIte]
                rw [ih]
                have hc : Char.ofNat 12 = c := by rw [← e12, Char.ofNat_toNat]
                rw [hc]
                rfl
              · rw [if_neg e12]
                by_cases e13 : c.toNat = 13
                · rw [if_pos e13]
                  show parseStrBody ('\\' :: 'r' :: X) = _
                  rw [parseStrBody.eq_def]
                  simp only [reduceIte]
                  rw [ih]
                  have hc : Char.ofNat 13 = c := by rw [← e13, Char.ofNat_toNat]
                  rw [hc]
                  rfl
                · rw [if_neg e13]
                  show parseStrBody ('\\' :: 'u' :: '0' :: '0' ::
                    hexLower (c.toNat / 16) :: hexLower (c.toNat % 16) :: X) = _
                  rw [parseStrBody.eq_def]
                  simp only [reduceIte, show hexLowVal '0' = some 0 from by decide,
                    hexLowVal_hexLower (c.toNat / 16) (by omega),
                    hexLowVal_hexLower (c.toNat % 16) (by omega)]
                  rw [ih]
                  have hc : Char.ofNat (4096 * 0 + 256 * 0 + 16 * (c.toNat / 16) +
                      c.toNat % 16) = c := by
                    have he : 4096 * 0 + 256 * 0 + 16 * (c.toNat / 16) + c.toNat % 16 =
                        c.toNat := by omega
                    rw [he, Char.ofNat_toNat]
                  rw [hc]
                  rfl
      · rw [if_neg h3]
        show parseStrBody (c :: X) = _
        rw [parseStrBody.eq_def]
        simp only [if_neg h1, if_neg h2]
        rw [ih]
        rfl

theorem parseStrBody_flat : ∀ (s : Str) (rest : List Char),
    parseStrBody (s.flatMap escChar ++ '"' :: rest) = some (s, rest) := by
  intro s
  induction s with
  | nil =>
    intro rest
    show parseStrBody ('"' :: rest) = _
    rw [parseStrBody.eq_def]
    simp only [reduceIte]
  | cons c cs ih =>
    intro rest
    rw [List.flatMap_cons, List.append_assoc]
    exact parseStrBody_escChar c _ cs rest (ih rest)

theorem sizeJV_pos (v : JValue) : 1 ≤ sizeJV v := by
  cases v <;> simp [sizeJV]

theorem sizeJL_pos (es : List JValue) : 1 ≤ sizeJL es := by
  cases es <;> simp [sizeJL] <;> omega

theorem sizeJF_pos (fs : List (Str × JValue)) : 1 ≤ sizeJF fs := by
  cases fs with
  | nil => simp [sizeJF]
  | cons kv fs => obtain ⟨k, v⟩ := kv; simp [sizeJF]; omega

theorem jsonEncode_head (v : JValue) : ∃ c r, jsonEncode v = c :: r ∧
    c ≠ ']' ∧ c ≠ rcurl ∧ c ≠ ',' := by
  cases v with
  | null => exact ⟨'n', "ull".data, by decide, by decide, by decide, by decide⟩
  | bool b =>
    cases b
    · exact ⟨'f', "alse".data, by decide, by decide, by decide, by decide⟩
    · exact ⟨'t', "rue".data, by decide, by decide, by decide, by decide⟩
  | num n =>
    cases n with
    | ofNat m =>
      obtain ⟨d, r, hd, hr⟩ := natChars_head m
      obtain ⟨_, _, _, _, _, _, _, hn8, hn9, hn10⟩ := digitChar_not_marker d hd
      refine ⟨digitChar d, r, ?_, hn8, hn10, hn9⟩
      show jsonEncode (JValue.num (Int.ofNat m)) = _
      rw [show jsonEncode (JValue.num (Int.ofNat m)) = intChars (Int.ofNat m) from by
        simp only [jsonEncode]]
      show natChars m = _
      exact hr
    | negSucc m =>
      refine ⟨'-', natChars (m + 1), ?_, by decide, by decide, by decide⟩
      rw [show jsonEncode (JValue.num (Int.negSucc m)) = intChars (Int.negSucc m) from by
        simp only [jsonEncode]]
      rfl
  | str s =>
    refine ⟨'"', s.flatMap escChar ++ ['"'], ?_, by decide, by decide, by decide⟩
    simp only [jsonEncode, jsonStrLit]
    rfl
  | arr es =>
    refine ⟨'[', jsonItems es ++ [']'], ?_, by decide, by decide, by decide⟩
    simp only [jsonEncode]
    rfl
  | obj fs =>
    refine ⟨lcurl, jsonFields fs ++ [rcurl], ?_, by decide, by decide, by decide⟩
    simp only [jsonEncode]
    rfl

theorem rt_all : ∀ fuel : Nat,
    (∀ (v : JValue) (rest : List Char), sizeJV v ≤ fuel → delimOk rest →
      parseVal fuel (jsonEncode v ++ rest) = some (v, rest)) ∧
    (∀ (es : List JValue) (rest : List Char), sizeJL es ≤ fuel →
      parseItems fuel (jsonItems es ++ ']' :: rest) = some (es, rest)) ∧
    (∀ (fs : List (Str × JValue)) (rest : List Char), sizeJF fs ≤ fuel →
      parseFields fuel (jsonFields fs ++ rcurl :: rest) = some (fs, rest)) := by
  intro fuel
  induction fuel with
  | zero =>
    refine ⟨?_, ?_, ?_⟩
    · intro v rest hf _; exact absurd hf (by have := sizeJV_pos v; omega)
    · intro es rest hf; exact absurd hf (by have := sizeJL_pos es; omega)
    · intro fs rest hf; exact absurd hf (by have := sizeJF_pos fs; omega)
  | succ fuel ih =>
    obtain ⟨ihv, ihl, ihf⟩ := ih
    refine ⟨?_, ?_, ?_⟩
    · intro v rest hf hd
      cases v with
      | null =>
        rw [show jsonEncode JValue.null = 'n' :: "ull".data from by decide]
        rw [List.cons_append, parseVal.eq_def]
        simp only [reduceIte]
        rw [stripPre_append]
        rfl
      | bool b =>
        cases b
        · rw [show jsonEncode (JValue.bool false) = 'f' :: "alse".data from by decide]
          rw [List.cons_append, parseVal.eq_def]
          simp only [reduceIte]
          rw [stripPre_append]
          rfl
        · rw [show jsonEncode (JValue.bool true) = 't' :: "rue".data from by decide]
          rw [List.cons_append, parseVal.eq_def]
          simp only [reduceIte]
          rw [stripPre_append]
          rfl
      | num n =>
        cases n with
        | ofNat m =>
          obtain ⟨d, r, hdlt, hr⟩ := natChars_head m
          obtain ⟨hn1, hn2, hn3, hn4, hn5, hn6, hn7, _, _, _⟩ := digitChar_not_marker d hdlt
          rw [show jsonEncode (JValue.num (Int.ofNat m)) = intChars (Int.ofNat m) from by
            simp only [jsonEncode]]
          rw [show intChars (Int.ofNat m) = natChars m from rfl, hr, List.cons_append,
            parseVal.eq_def]
          simp only [if_neg hn1, if_neg hn2, if_neg hn3, if_neg hn4, if_neg hn5, if_neg hn6,
            if_neg hn7, digitVal_digitChar d hdlt]
          rw [show digitChar d :: (r ++ rest) = natChars m ++ rest from by rw [hr]; rfl]
          rw [parseDigits_natChars hd]
        | negSucc m =>
          obtain ⟨d, r, hdlt, hr⟩ := natChars_head (m + 1)
          rw [show jsonEncode (JValue.num (Int.negSucc m)) = '-' :: natChars (m + 1) from by
            simp only [jsonEncode]; rfl]
          rw [hr, List.cons_append, List.cons_append, parseVal.eq_def]
          simp only [reduceIte, digitVal_digitChar d hdlt]
          rw [show digitChar d :: (r ++ rest) = natChars (m + 1) ++ rest from by rw [hr]; rfl]
          rw [parseDigits_natChars hd]
          rfl
      | str s =>
        rw [show jsonEncode (JValue.str s) = '"' :: (s.flatMap escChar ++ ['"']) from by
          simp only [jsonEncode, jsonStrLit]; rfl]
        rw [List.cons_append, parseVal.eq_def]
        simp only [reduceIte]
        rw [List.append_assoc, List.singleton_append, parseStrBody_flat]
        rfl
      | arr es =>
        rw [show jsonEncode (JValue.arr es) = '[' :: (jsonItems es ++ [']']) from by
          simp only [jsonEncode]; rfl]
        rw [List.cons_append, parseVal.eq_def]
        simp only [reduceIte]
        rw [List.append_assoc, List.singleton_append]
        rw [ihl es rest (by simp only [sizeJV] at hf; omega)]
        rfl
      | obj fs =>
        rw [show jsonEncode (JValue.obj fs) = lcurl :: (jsonFields fs ++ [rcurl]) from by
          simp only [jsonEncode]; rfl]
        rw [List.cons_append, parseVal.eq_def]
        simp only [reduceIte]
        rw [List.append_assoc, List.singleton_append]
        rw [ihf fs rest (by simp only [sizeJV] at hf; omega)]
        rfl
    · intro es rest hf
      cases es with
      | nil =>
        rw [show jsonItems ([] : List JValue) = [] from by decide]
        rw [List.nil_append, parseItems.eq_def]
        simp only [reduceIte]
      | cons v vs =>
        obtain ⟨c, r, hvr, hc1, hc2, hc3⟩ := jsonEncode_head v
        cases vs with
        | nil =>
          rw [show jsonItems [v] = jsonEncode v from by simp only [jsonItems]]
          have hval := ihv v (']' :: rest)
            (by simp only [sizeJL] at hf; omega)
            (by show digitVal ']' = none; decide)
          rw [hvr, List.cons_append] at hval
          rw [hvr, List.cons_append, parseItems.eq_def]
          simp only [if_neg hc1, hval]
        | cons w ws =>
          rw [show jsonItems (v :: w :: ws) = jsonEncode v ++ ',' :: jsonItems (w :: ws) from by
            simp only [jsonItems]]
          have hval := ihv v (',' :: (jsonItems (w :: ws) ++ ']' :: rest))
            (by simp only [sizeJL] at hf; omega)
            (by show digitVal ',' = none; decide)
          rw [hvr, List.cons_append] at hval
          rw [List.append_assoc, List.cons_append, hvr, List.cons_append, parseItems.eq_def]
          simp only [if_neg hc1, hval]
          rw [ihl (w :: ws) rest (by simp only [sizeJL] at hf ⊢; omega)]
    · intro fs rest hf
      cases fs with
      | nil =>
        rw [show jsonFields ([] : List (Str × JValue)) = [] from by decide]
        rw [List.nil_append, parseFields.eq_def]
        simp only [reduceIte]
      | cons kv fs =>
        obtain ⟨k, v⟩ := kv
        cases fs with
        | nil =>
          rw [show jsonFields [(k, v)] = jsonStrLit k ++ ':' :: jsonEncode v from by
            simp only [jsonFields]]
          rw [show jsonStrLit k = '"' :: (k.flatMap escChar ++ ['"']) from rfl]
          simp only [List.cons_append, List.append_assoc, List.singleton_append,
            List.nil_append]
          have hval := ihv v (rcurl :: rest)
            (by simp only [sizeJF] at hf; omega)
            (by show digitVal rcurl = none; decide)
          rw [parseFields.eq_def]
          simp only [parseStrBody_flat, hval]
          rfl
        | cons kv2 fs2 =>
          rw [show jsonFields ((k, v) :: kv2 :: fs2) =
              jsonStrLit k ++ ':' :: jsonEncode v ++ ',' :: jsonFields (kv2 :: fs2) from by
            simp only [jsonFields]]
          rw [show jsonStrLit k = '"' :: (k.flatMap escChar ++ ['"']) from rfl]
          simp only [List.cons_append, List.append_assoc, List.singleton_append,
            List.nil_append]
          have hval := ihv v (',' :: (jsonFields (kv2 :: fs2) ++ rcurl :: rest))
            (by simp only [sizeJF] at hf; omega)
            (by show digitVal ',' = none; decide)
          rw [parseFields.eq_def]
          simp only [parseStrBody_flat, hval]
          rw [ihf (kv2 :: fs2) rest (by simp only [sizeJF] at hf ⊢; omega)]
          rfl

theorem jsonEncode_inj {v1 v2 : JValue} (h : jsonEncode v1 = jsonEncode v2) : v1 = v2 := by
  have h1 := (rt_all (max (sizeJV v1) (sizeJV v2))).1 v1 [] (le_max_left _ _) trivial
  have h2 := (rt_all (max (sizeJV v1) (sizeJV v2))).1 v2 [] (le_max_right _ _) trivial
  rw [List.append_nil] at h1 h2
  rw [h, h2] at h1
  simpa using h1.symm

/-- C3 (amended): the derived key is the topic name alone without options;
with options it is the topic name, a question mark (or an ampersand when
the name already contains one), the options marker and the percent-escaped
serialized JSON of the options' query and headers.  The key depends on
exactly that content: permuting the query or header entries (HashMap
content equality) leaves the key unchanged, and two option values derive
the same key for a topic precisely when their query maps and their header
maps agree as sorted member lists. -/
theorem C3_key_derivation (t : Str) (o o1 o2 : SendOpts) :
    (subscribeKey t none = t) ∧
    (subscribeKey t (some o) =
      t ++ (if t.contains '?' then ['&'] else ['?']) ++ "options=".data ++
        urlEncode (serializeOpts o)) ∧
    (o1.query.Perm o2.query → o1.headers.Perm o2.headers →
      (o1.query.map Prod.fst).Nodup → (o1.headers.map Prod.fst).Nodup →
      subscribeKey t (some o1) = subscribeKey t (some o2)) ∧
    (subscribeKey t (some o1) = subscribeKey t (some o2) ↔
      sortByKey o1.query = sortByKey o2.query ∧
      sortByKey (o1.headers.map (fun kv => (kv.1, JValue.str kv.2))) =
        sortByKey (o2.headers.map (fun kv => (kv.1, JValue.str kv.2)))) := by
  refine ⟨rfl, rfl, ?_, ?_, ?_⟩
  · intro hq hh hndq hndh
    have hq2 : sortByKey o1.query = sortByKey o2.query := sortByKey_perm_eq hq hndq
    have hh2 : sortByKey (o1.headers.map (fun kv => (kv.1, JValue.str kv.2))) =
        sortByKey (o2.headers.map (fun kv => (kv.1, JValue.str kv.2))) := by
      refine sortByKey_perm_eq (hh.map _) ?_
      have hkeys : (o1.headers.map (fun kv => (kv.1, JValue.str kv.2))).map Prod.fst =
          o1.headers.map Prod.fst := by
        rw [List.map_map]
        rfl
      rw [hkeys]
      exact hndh
    rw [subscribeKey_some, subscribeKey_some]
    unfold serializeOpts optsValue
    rw [hq2, hh2]
  · intro heq
    rw [subscribeKey_some, subscribeKey_some] at heq
    have hser : serializeOpts o1 = serializeOpts o2 :=
      urlEncode_inj (List.append_cancel_left heq)
    have hval : optsValue o1 = optsValue o2 := jsonEncode_inj hser
    simp only [optsValue, JValue.obj.injEq, List.cons.injEq, Prod.mk.injEq, true_and,
      and_true] at hval
    exact ⟨hval.2, hval.1⟩
  · intro hc
    rw [subscribeKey_some, subscribeKey_some]
    unfold serializeOpts optsValue
    rw [hc.1, hc.2]

theorem C3_key_derivation_witness :
    subscribeKey "posts".data
        (some ⟨"GET".data, [("k".data, "v".data)], none, [], none⟩) =
      subscribeKey "posts".data
        (some ⟨"POST".data, [("k".data, "v".data)], none, [], some "r".data⟩) ∧
    (sortByKey [("a".data, JValue.num 1), ("b".data, JValue.num 2)] =
        sortByKey [("b".data, JValue.num 2), ("a".data, JValue.num 1)] ∧
      sortByKey (([] : List (Str × Str)).map (fun kv => (kv.1, JValue.str kv.2))) =
        sortByKey (([] : List (Str × Str)).map (fun kv => (kv.1, JValue.str kv.2)))) :=
  ⟨(C3_key_derivation "posts".data ⟨"GET".data, [], none, [], none⟩
      ⟨"GET".data, [("k".data, "v".data)], none, [], none⟩
      ⟨"POST".data, [("k".data, "v".data)], none, [], some "r".data⟩).2.2.1
      (List.Perm.refl _) (List.Perm.refl _) (by decide) (by decide),
   (C3_key_derivation "posts".data ⟨"GET".data, [], none, [], none⟩
      ⟨"GET".data, [], none, [("a".data, JValue.num 1), ("b".data, JValue.num 2)], none⟩
      ⟨"POST".data, [], none, [("b".data, JValue.num 2), ("a".data, JValue.num 1)], none⟩).2.2.2.mp
      ((C3_key_derivation "posts".data ⟨"GET".data, [], none, [], none⟩
        ⟨"GET".data, [], none, [("a".data, JValue.num 1), ("b".data, JValue.num 2)], none⟩
        ⟨"POST".data, [], none, [("b".data, JValue.num 2), ("a".data, JValue.num 1)], none⟩).2.2.1
        (List.Perm.swap _ _ _) (List.Perm.refl _) (by decide) (by decide))⟩
